import Mathlib

/-!
# Verification development for `rapidfuzz_plugin.cpp`

A shallow embedding of the Stata plugin `src/c_source/rapidfuzz_plugin.cpp` and
theorems about it.

Modelling conventions.

* A C++ `double` is the rational number (`ℚ`) it denotes. Comparisons are
  exact; the product by `100.0` is rounded to the nearest double, ties to even
  (`double_mul`); the conversion of a count to `double` is taken as exact (it is
  below `2^53`); NaN and the infinities are outside the model.
* An `int` is an integer. The one `int` operation that can overflow on
  arguments the plugin accepts, the sum of line 224, is taken modulo `2^32`
  (`to_int32`).
* A `std::string` / `const char *` is a Lean `String`.
* The rapidfuzz library, the Stata host (`SV_missval`, `SF_is_missing`) and the
  libc parsers (`atoi`, `atof`) are not part of the repository: they are the
  fields of `Env`, so every theorem holds for every library and every host.
* The host table is a `Dataset`; the calls `SF_vstore`, `SF_display` and
  `SF_error` performed by a run are recorded, in order, as a list of `Effect`s.
-/

namespace Rapidfuzz

/-! ## Method dispatch (source lines 33-81) -/

/-- The `Method` enumeration, in declaration order (source lines 33-48). -/
inductive Method
  | M_RATIO | M_PARTIAL_RATIO
  | M_TOKEN_SORT | M_PARTIAL_TOKEN_SORT
  | M_TOKEN_SET | M_PARTIAL_TOKEN_SET
  | M_TOKEN_RATIO | M_PARTIAL_TOKEN_RATIO
  | M_WRATIO | M_QRATIO
  | M_JARO | M_JARO_WINKLER
  | M_NORM_LEV | M_NORM_OSA
  | M_NORM_HAMMING | M_NORM_INDEL | M_NORM_LCSSEQ
  | M_LEVENSHTEIN | M_OSA
  | M_HAMMING | M_INDEL | M_LCSSEQ
  | M_INVALID
  deriving DecidableEq, Repr

open Method

/-- The integer value of an enumerator: C++ numbers the enumerators of an
unscoped `enum` 0, 1, 2, ... in declaration order. -/
def Method.toNat : Method → Nat
  | M_RATIO => 0
  | M_PARTIAL_RATIO => 1
  | M_TOKEN_SORT => 2
  | M_PARTIAL_TOKEN_SORT => 3
  | M_TOKEN_SET => 4
  | M_PARTIAL_TOKEN_SET => 5
  | M_TOKEN_RATIO => 6
  | M_PARTIAL_TOKEN_RATIO => 7
  | M_WRATIO => 8
  | M_QRATIO => 9
  | M_JARO => 10
  | M_JARO_WINKLER => 11
  | M_NORM_LEV => 12
  | M_NORM_OSA => 13
  | M_NORM_HAMMING => 14
  | M_NORM_INDEL => 15
  | M_NORM_LCSSEQ => 16
  | M_LEVENSHTEIN => 17
  | M_OSA => 18
  | M_HAMMING => 19
  | M_INDEL => 20
  | M_LCSSEQ => 21
  | M_INVALID => 22

/-- Source lines 50-77: a chain of `!strcmp(name, "...")` tests. -/
def parse_method (name : String) : Method :=
  if name = "ratio" then M_RATIO
  else if name = "partial_ratio" then M_PARTIAL_RATIO
  else if name = "token_sort" then M_TOKEN_SORT
  else if name = "partial_token_sort" then M_PARTIAL_TOKEN_SORT
  else if name = "token_set" then M_TOKEN_SET
  else if name = "partial_token_set" then M_PARTIAL_TOKEN_SET
  else if name = "token_ratio" then M_TOKEN_RATIO
  else if name = "partial_token_ratio" then M_PARTIAL_TOKEN_RATIO
  else if name = "wratio" then M_WRATIO
  else if name = "qratio" then M_QRATIO
  else if name = "jaro" then M_JARO
  else if name = "jaro_winkler" then M_JARO_WINKLER
  else if name = "norm_lev" then M_NORM_LEV
  else if name = "norm_osa" then M_NORM_OSA
  else if name = "norm_hamming" then M_NORM_HAMMING
  else if name = "norm_indel" then M_NORM_INDEL
  else if name = "norm_lcsseq" then M_NORM_LCSSEQ
  else if name = "levenshtein" then M_LEVENSHTEIN
  else if name = "osa" then M_OSA
  else if name = "hamming" then M_HAMMING
  else if name = "indel" then M_INDEL
  else if name = "lcsseq" then M_LCSSEQ
  else M_INVALID

/-- Source lines 79-81: `return m <= M_NORM_LCSSEQ;`. -/
def is_similarity_method (m : Method) : Bool :=
  decide (m.toNat ≤ Method.toNat M_NORM_LCSSEQ)

/-- The 17 similarity-percent names of the glossary. -/
def similarity_names : List String :=
  ["ratio", "partial_ratio", "token_sort", "partial_token_sort", "token_set",
   "partial_token_set", "token_ratio", "partial_token_ratio", "wratio", "qratio",
   "jaro", "jaro_winkler", "norm_lev", "norm_osa", "norm_hamming", "norm_indel",
   "norm_lcsseq"]

/-- The 5 raw-distance names of the glossary. -/
def distance_names : List String :=
  ["levenshtein", "osa", "hamming", "indel", "lcsseq"]

/-- The 22 catalog names, similarity group first. -/
def catalog : List String := similarity_names ++ distance_names

/-! ## External collaborators -/

/-- The functions of the rapidfuzz-cpp library that the plugin calls. Each one
either returns a value (`Except.ok`) or raises a C++ exception (`Except.error`,
carrying its `what()` text). The raw distances return an integer count. -/
structure Library where
  fuzz_ratio : String → String → Except String ℚ
  fuzz_partial_ratio : String → String → Except String ℚ
  fuzz_token_sort_ratio : String → String → Except String ℚ
  fuzz_partial_token_sort_ratio : String → String → Except String ℚ
  fuzz_token_set_ratio : String → String → Except String ℚ
  fuzz_partial_token_set_ratio : String → String → Except String ℚ
  fuzz_token_ratio : String → String → Except String ℚ
  fuzz_partial_token_ratio : String → String → Except String ℚ
  fuzz_WRatio : String → String → Except String ℚ
  fuzz_QRatio : String → String → Except String ℚ
  jaro_similarity : String → String → Except String ℚ
  jaro_winkler_similarity : String → String → ℚ → Except String ℚ
  levenshtein_normalized_similarity : String → String → Except String ℚ
  osa_normalized_similarity : String → String → Except String ℚ
  hamming_normalized_similarity : String → String → Except String ℚ
  indel_normalized_similarity : String → String → Except String ℚ
  lcs_seq_normalized_similarity : String → String → Except String ℚ
  levenshtein_distance : String → String → Except String Int
  osa_distance : String → String → Except String Int
  hamming_distance : String → String → Except String Int
  indel_distance : String → String → Except String Int
  lcs_seq_distance : String → String → Except String Int

/-- Everything the plugin takes from outside the repository: the library, the
host's missing value `SV_missval` and test `SF_is_missing` (from `stplugin.h`),
and the libc parsers `atoi` and `atof`. -/
structure Env where
  lib : Library
  SV_missval : ℚ
  SF_is_missing : ℚ → Bool
  atoi : String → Int
  atof : String → ℚ

/-- The host table as the plugin sees it: `SF_nobs()`, `SF_nvar()` and the
string that `SF_sdata(var, obs, buf)` copies into the buffer. -/
structure Dataset where
  nobs : Nat
  nvar : Nat
  sdata : Int → Int → String

/-- One call into the host that a run performs: `SF_vstore(var, obs, val)`,
`SF_display(msg)` or `SF_error(msg)`. An error carries the formatted message
before `snprintf` cuts it to its buffer. -/
inductive Effect
  | vstore (var obs : Int) (val : ℚ)
  | display (msg : String)
  | error (msg : String)
  deriving DecidableEq, Repr

/-- What a call hands back to the host: the return code and the host calls it
made, in order. -/
structure Outcome where
  rc : Int
  trace : List Effect
  deriving DecidableEq, Repr

/-! ## Double arithmetic -/

/-- The integer nearest to `s`, the even one of the two when `s` lies halfway. -/
def round_even (s : ℚ) : Int :=
  if 2 * Int.fract s < 1 then ⌊s⌋
  else if 1 < 2 * Int.fract s then ⌊s⌋ + 1
  else if ⌊s⌋ % 2 = 0 then ⌊s⌋ else ⌊s⌋ + 1

/-- The exponent of the last mantissa bit of the binary64 numbers around `q`:
53 bits of precision, and the fixed exponent `-1074` in the subnormal range. -/
def ulp_exp (q : ℚ) : Int :=
  max (Int.log 2 |q| - 52) (-1074)

/-- The binary64 number nearest to `q`, ties to even (IEEE 754 rounding of a
result below the overflow threshold). -/
def to_double (q : ℚ) : ℚ :=
  (round_even (q / 2 ^ ulp_exp q) : ℚ) * 2 ^ ulp_exp q

/-- The product `a * b` of two `double`s: the exact product, rounded. -/
def double_mul (a b : ℚ) : ℚ :=
  to_double (a * b)

/-! ## Score computation (source lines 88-126) -/

/-- The `switch` inside the `try` block of `compute_score` (lines 92-122): the
selected library call, multiplied by `100.0` in `double` arithmetic for the
normalized similarities and converted to `double` for the raw counts;
`default` yields `SV_missval`. -/
def score_switch (env : Env) (s1 s2 : String) (method : Method)
    (prefix_weight : ℚ) : Except String ℚ :=
  match method with
  | M_RATIO => env.lib.fuzz_ratio s1 s2
  | M_PARTIAL_RATIO => env.lib.fuzz_partial_ratio s1 s2
  | M_TOKEN_SORT => env.lib.fuzz_token_sort_ratio s1 s2
  | M_PARTIAL_TOKEN_SORT => env.lib.fuzz_partial_token_sort_ratio s1 s2
  | M_TOKEN_SET => env.lib.fuzz_token_set_ratio s1 s2
  | M_PARTIAL_TOKEN_SET => env.lib.fuzz_partial_token_set_ratio s1 s2
  | M_TOKEN_RATIO => env.lib.fuzz_token_ratio s1 s2
  | M_PARTIAL_TOKEN_RATIO => env.lib.fuzz_partial_token_ratio s1 s2
  | M_WRATIO => env.lib.fuzz_WRatio s1 s2
  | M_QRATIO => env.lib.fuzz_QRatio s1 s2
  | M_JARO => (env.lib.jaro_similarity s1 s2).map (fun v => double_mul v 100)
  | M_JARO_WINKLER =>
      (env.lib.jaro_winkler_similarity s1 s2 prefix_weight).map (fun v => double_mul v 100)
  | M_NORM_LEV =>
      (env.lib.levenshtein_normalized_similarity s1 s2).map (fun v => double_mul v 100)
  | M_NORM_OSA => (env.lib.osa_normalized_similarity s1 s2).map (fun v => double_mul v 100)
  | M_NORM_HAMMING =>
      (env.lib.hamming_normalized_similarity s1 s2).map (fun v => double_mul v 100)
  | M_NORM_INDEL =>
      (env.lib.indel_normalized_similarity s1 s2).map (fun v => double_mul v 100)
  | M_NORM_LCSSEQ =>
      (env.lib.lcs_seq_normalized_similarity s1 s2).map (fun v => double_mul v 100)
  | M_LEVENSHTEIN => (env.lib.levenshtein_distance s1 s2).map (fun d => (d : ℚ))
  | M_OSA => (env.lib.osa_distance s1 s2).map (fun d => (d : ℚ))
  | M_HAMMING => (env.lib.hamming_distance s1 s2).map (fun d => (d : ℚ))
  | M_INDEL => (env.lib.indel_distance s1 s2).map (fun d => (d : ℚ))
  | M_LCSSEQ => (env.lib.lcs_seq_distance s1 s2).map (fun d => (d : ℚ))
  | M_INVALID => Except.ok env.SV_missval

/-- Source lines 88-126: the `switch` under `try`, with `catch (...)` turning
every exception into `SV_missval`. -/
def compute_score (env : Env) (s1 s2 : String) (method : Method)
    (prefix_weight : ℚ) : ℚ :=
  match score_switch env s1 s2 method prefix_weight with
  | Except.ok v => v
  | Except.error _ => env.SV_missval

/-! ## String helpers (source lines 132-144) -/

/-- Source lines 132-137: the string of variable `var` at observation `obs`. -/
def read_string (ds : Dataset) (var obs : Int) : String :=
  ds.sdata var obs

/-- The libc `tolower` in the "C" locale: the letters `A`..`Z` go to `a`..`z`
(their code plus 32), every other character is returned unchanged. -/
def tolower (c : Char) : Char :=
  if 'A' ≤ c ∧ c ≤ 'Z' then Char.ofNat (c.toNat + 32) else c

/-- Source lines 139-144: `std::transform` of a copy of `s` with `tolower`. -/
def to_lower (s : String) : String :=
  String.mk (s.data.map tolower)

/-! ## Option arguments (source lines 167-172 and 217-222) -/

/-- The test `!strncmp(arg, "pw=", 3)`: the first three characters are `pw=`. -/
def has_pw_tag (arg : String) : Bool :=
  decide (arg.data.take 3 = "pw=".data)

/-- One pass of the option loop over an argument: `nocase` sets the flag, an
argument starting with `pw=` sets `pw` to `atof` of what follows the tag. -/
def flag_step (env : Env) (st : Bool × ℚ) (arg : String) : Bool × ℚ :=
  if arg = "nocase" then (true, st.2)
  else if has_pw_tag arg then (st.1, env.atof (String.mk (arg.data.drop 3)))
  else st

/-- The option loop of both modes, started from `nocase = false`, `pw = 0.1`;
the result is the pair `(nocase, pw)`. -/
def parse_flags (env : Env) (opts : List String) : Bool × ℚ :=
  opts.foldl (flag_step env) (false, 1 / 10)

/-! ## Pairwise mode (source lines 153-189) -/

/-- The body of the loop of `do_pairwise` for observation `obs` (lines 181-186):
the `SF_vstore` it performs. -/
def pairwise_row (env : Env) (ds : Dataset) (method : Method) (nocase : Bool)
    (pw : ℚ) (obs : Int) : Effect :=
  let s1 := read_string ds 1 obs
  let s2 := read_string ds 2 obs
  let s1 := if nocase then to_lower s1 else s1
  let s2 := if nocase then to_lower s2 else s2
  Effect.vstore 3 obs (compute_score env s1 s2 method pw)

/-- Source lines 153-189. `argv` is the argument vector, `argc` its length. -/
def do_pairwise (env : Env) (ds : Dataset) : List String → Outcome
  | _ :: name :: opts =>
    let method := parse_method name
    if method = M_INVALID then
      ⟨198, [Effect.error ("rapidfuzz: unknown method '" ++ name ++ "'\n")]⟩
    else
      let flags := parse_flags env opts
      if ds.nvar ≠ 3 then
        ⟨198, [Effect.error "rapidfuzz pairwise: need exactly 3 variables\n"]⟩
      else
        ⟨0, (List.range ds.nobs).map (fun (k : Nat) =>
              pairwise_row env ds method flags.1 flags.2 ((k : Int) + 1))⟩
  | _ => ⟨198, [Effect.error "rapidfuzz pairwise: requires method argument\n"]⟩

/-! ## Match mode (source lines 201-269) -/

/-- The body of the inner loop of `do_match` (lines 250-256) at reference index
`j` with reference string `r`: the state is `(best, best_j)`. -/
def scan_step (env : Env) (method : Method) (pw : ℚ) (higher_better : Bool)
    (m : String) (st : ℚ × Nat) (j : Nat) (r : String) : ℚ × Nat :=
  let s := compute_score env m r method pw
  if env.SF_is_missing s then st
  else if (if higher_better then s > st.1 else s < st.1) then (s, j)
  else st

/-- The inner loop of `do_match` (lines 249-257) over the references that are
left, the first of them at index `j`. -/
def scan_refs (env : Env) (method : Method) (pw : ℚ) (higher_better : Bool)
    (m : String) : List String → Nat → ℚ × Nat → ℚ × Nat
  | [], _, st => st
  | r :: rest, j, st =>
    scan_refs env method pw higher_better m rest (j + 1)
      (scan_step env method pw higher_better m st j r)

/-- Lines 246-257 for one master string: `best` starts at `-1.0` or `1e18`,
`best_j` at 0, and the whole reference is scanned. -/
def best_match (env : Env) (method : Method) (pw : ℚ) (higher_better : Bool)
    (ref : List String) (m : String) : ℚ × Nat :=
  scan_refs env method pw higher_better m ref 0
    (if higher_better then -1 else 1000000000000000000, 0)

/-- The text `snprintf` builds from `"  matched %d of %d\n"` (line 264). -/
def progress_msg (done total : Int) : String :=
  "  matched " ++ toString done ++ " of " ++ toString total ++ "\n"

/-- Lines 259-266 for master record `i` (0-based): the two `SF_vstore` calls
and, when `(i + 1) % report_every == 0`, the progress message. -/
def record_effects (n_master report_every : Int) (i : Nat) (res : ℚ × Nat) :
    List Effect :=
  [Effect.vstore 2 ((i : Int) + 1) res.1,
   Effect.vstore 3 ((i : Int) + 1) (((res.2 + 1 : Nat) : Int) : ℚ)] ++
  (if Int.tmod ((i : Int) + 1) report_every = 0 then
     [Effect.display (progress_msg ((i : Int) + 1) n_master)]
   else [])

/-- The outer loop of `do_match` (lines 245-267) over the master strings that
are left, the first of them being record `i`. -/
def match_loop (env : Env) (method : Method) (pw : ℚ) (higher_better : Bool)
    (ref : List String) (n_master report_every : Int) :
    List String → Nat → List Effect
  | [], _ => []
  | m :: rest, i =>
    record_effects n_master report_every i
        (best_match env method pw higher_better ref m) ++
      match_loop env method pw higher_better ref n_master report_every rest (i + 1)

/-- Lines 232-240: the `count` strings of variable 1 from observation
`first + 1` on, each lowered when `nocase` is set. -/
def read_block (ds : Dataset) (nocase : Bool) (first : Int) (count : Int) :
    List String :=
  (List.range count.toNat).map (fun (k : Nat) =>
    let s := read_string ds 1 (first + (k : Int) + 1)
    if nocase then to_lower s else s)

/-- Lines 242-243: `n_master / 10`, raised to 1 when smaller. -/
def report_interval (n_master : Int) : Int :=
  if Int.tdiv n_master 10 < 1 then 1 else Int.tdiv n_master 10

/-- The value of an `int` (or `ST_int`) expression whose exact result is `z`:
`z` reduced modulo `2^32` into the range `-2^31 .. 2^31 - 1`. -/
def to_int32 (z : Int) : Int :=
  (z + 2147483648) % 4294967296 - 2147483648

/-- Source lines 201-269. The test of line 224 compares two `int`s: the
`ST_int` that `SF_nobs()` returns and the sum `n_master + n_ref`, which wraps
modulo `2^32`. A negative `n_master` or `n_ref` that passes the test makes the
`std::vector` constructor of line 232 raise `std::length_error`, which leaves
`do_match` as an exception. -/
def do_match (env : Env) (ds : Dataset) : List String → Except String Outcome
  | _ :: name :: a2 :: a3 :: opts =>
    let method := parse_method name
    if method = M_INVALID then
      Except.ok ⟨198, [Effect.error ("rapidfuzz: unknown method '" ++ name ++ "'\n")]⟩
    else
      let n_master := env.atoi a2
      let n_ref := env.atoi a3
      let flags := parse_flags env opts
      if to_int32 (ds.nobs : Int) ≠ to_int32 (n_master + n_ref) then
        Except.ok ⟨198, [Effect.error "rapidfuzz match: observation count mismatch\n"]⟩
      else
        let higher_better := is_similarity_method method
        if n_master < 0 ∨ n_ref < 0 then Except.error "std::length_error"
        else
          let master := read_block ds flags.1 0 n_master
          let ref := read_block ds flags.1 n_master n_ref
          Except.ok ⟨0, match_loop env method flags.2 higher_better ref n_master
            (report_interval n_master) master 0⟩
  | _ => Except.ok ⟨198, [Effect.error "rapidfuzz match: requires method, n_master, n_ref\n"]⟩

/-! ## Entry point (source lines 278-302) -/

/-- Source lines 278-302: dispatch on `argv[0]`; an exception that leaves a
mode is reported and becomes return code 909. -/
def stata_call (env : Env) (ds : Dataset) (argv : List String) : Outcome :=
  match argv with
  | [] => ⟨198, [Effect.error "rapidfuzz: requires mode (pairwise or match)\n"]⟩
  | mode :: _ =>
    if mode = "pairwise" then do_pairwise env ds argv
    else if mode = "match" then
      match do_match env ds argv with
      | Except.ok out => out
      | Except.error what => ⟨909, [Effect.error ("rapidfuzz: " ++ what ++ "\n")]⟩
    else ⟨198, [Effect.error ("rapidfuzz: unknown mode '" ++ mode ++ "'\n")]⟩

/-! ## Reading a trace -/

/-- The `SF_vstore` calls of a trace, as triples `(var, obs, val)`, in order. -/
def vstores (tr : List Effect) : List (Int × Int × ℚ) :=
  tr.filterMap (fun e =>
    match e with
    | Effect.vstore v o x => some (v, o, x)
    | _ => none)

/-- The values stored for observation `obs`, each with its variable, in the
order of the calls. -/
def stores_at (tr : List Effect) (obs : Int) : List (Int × ℚ) :=
  (vstores tr).filterMap (fun w => if w.2.1 = obs then some (w.1, w.2.2) else none)

/-! ## The comparison of the inner loop -/

/-- The test of line 253: `s` beats `b` in the direction of the metric. -/
def better (higher_better : Bool) (s b : ℚ) : Prop :=
  if higher_better then s > b else s < b

/-! ## The strings and comparisons of a `do_match` call -/

/-- The master strings `do_match` holds after lines 233-236, for the count
argument `a2` and the options `opts`. -/
def master_of (env : Env) (ds : Dataset) (a2 : String) (opts : List String) :
    List String :=
  read_block ds (parse_flags env opts).1 0 (env.atoi a2)

/-- The reference strings `do_match` holds after lines 237-240, for the count
arguments `a2`, `a3` and the options `opts`. -/
def ref_of (env : Env) (ds : Dataset) (a2 a3 : String) (opts : List String) :
    List String :=
  read_block ds (parse_flags env opts).1 (env.atoi a2) (env.atoi a3)

/-- The comparison of line 250 for the method argument `name` and the options
`opts`: the score of master string `m` against reference string `r`. -/
def pair_score (env : Env) (name : String) (opts : List String) (m r : String) : ℚ :=
  compute_score env m r (parse_method name) (parse_flags env opts).2

/-! ## Tables and outcomes used in the statements -/

/-- The table in which every string has been replaced by `to_lower` of itself. -/
def lower_table (ds : Dataset) : Dataset :=
  { ds with sdata := fun var obs => to_lower (ds.sdata var obs) }

/-- A usage error: return code 198 and no `SF_vstore` performed. -/
def usage_error (o : Outcome) : Prop :=
  o.rc = 198 ∧ vstores o.trace = []

/-! ## A small environment for the concrete examples -/

/-- Hamming distance as the library defines it: the number of positions at
which the strings differ, and an exception when their lengths differ. -/
def sample_hamming (s1 s2 : String) : Except String Int :=
  if s1.length = s2.length then
    Except.ok (((List.zip s1.data s2.data).filter
      (fun p => decide (p.1 ≠ p.2))).length : Int)
  else Except.error "Sequences are not the same length."

/-- A stand-in similarity on the 0-100 scale: 100 for equal strings, else 0. -/
def sample_ratio (s1 s2 : String) : Except String ℚ :=
  Except.ok (if s1 = s2 then 100 else 0)

/-- A stand-in normalized similarity: 1 for equal strings, else 0. -/
def sample_norm (s1 s2 : String) : Except String ℚ :=
  Except.ok (if s1 = s2 then 1 else 0)

/-- A stand-in count: 0 for equal strings, else the longer length. -/
def sample_count (s1 s2 : String) : Except String Int :=
  Except.ok (if s1 = s2 then 0 else ((max s1.length s2.length : Nat) : Int))

/-- A library made of the stand-ins above; Hamming raises on unequal lengths. -/
def sample_lib : Library where
  fuzz_ratio := sample_ratio
  fuzz_partial_ratio := sample_ratio
  fuzz_token_sort_ratio := sample_ratio
  fuzz_partial_token_sort_ratio := sample_ratio
  fuzz_token_set_ratio := sample_ratio
  fuzz_partial_token_set_ratio := sample_ratio
  fuzz_token_ratio := sample_ratio
  fuzz_partial_token_ratio := sample_ratio
  fuzz_WRatio := sample_ratio
  fuzz_QRatio := sample_ratio
  jaro_similarity := sample_norm
  jaro_winkler_similarity := fun s1 s2 w => Except.ok (if s1 = s2 then 1 else w)
  levenshtein_normalized_similarity := sample_norm
  osa_normalized_similarity := sample_norm
  hamming_normalized_similarity := fun s1 s2 =>
    if s1.length = s2.length then sample_norm s1 s2
    else Except.error "Sequences are not the same length."
  indel_normalized_similarity := sample_norm
  lcs_seq_normalized_similarity := sample_norm
  levenshtein_distance := sample_count
  osa_distance := sample_count
  hamming_distance := sample_hamming
  indel_distance := sample_count
  lcs_seq_distance := sample_count

/-- Reads an unsigned decimal numeral, as `atoi` does on a string of digits. -/
def sample_atoi (s : String) : Int :=
  ((s.data.foldl (fun acc c => 10 * acc + (c.toNat - 48)) 0 : Nat) : Int)

/-- An environment for the examples: Stata's missing value `2^1023`, every
number at or above it missing, and `atof` reading an unsigned integer. -/
def sample_env : Env where
  lib := sample_lib
  SV_missval := 89884656743115795386465259539451236680898848947115328636715040578866337902750481566354238661203768010560056939935696678829394884407208311246423715319737062188883946712432742638151109800623047059726541476042502884419075341171231440736956555270413618581675255342293149119973622969239858152417678164812112068608
  SF_is_missing := fun z => decide ((89884656743115795386465259539451236680898848947115328636715040578866337902750481566354238661203768010560056939935696678829394884407208311246423715319737062188883946712432742638151109800623047059726541476042502884419075341171231440736956555270413618581675255342293149119973622969239858152417678164812112068608 : ℚ) ≤ z)
  atoi := sample_atoi
  atof := fun s => ((sample_atoi s : Int) : ℚ)

/-- A table with the given strings in variable 1 (observation 1 first) and a
second string variable; every other cell reads as the empty string. -/
def sample_table (col1 col2 : List String) (nvar : Nat) : Dataset where
  nobs := col1.length
  nvar := nvar
  sdata := fun var obs =>
    if var = 1 then col1.getD (obs.toNat - 1) ""
    else if var = 2 then col2.getD (obs.toNat - 1) ""
    else ""

/-! ## A library whose scores leave the expected range -/

/-- A stand-in Hamming count far above `1e18`: `2e18` for strings of equal
length, an exception when the lengths differ. -/
def far_hamming (s1 s2 : String) : Except String Int :=
  if s1.length = s2.length then Except.ok 2000000000000000000
  else Except.error "Sequences are not the same length."

/-- The sample environment with `far_hamming` as Hamming distance and a
`fuzz::ratio` that returns `-5` for every pair. -/
def far_env : Env :=
  { sample_env with
    lib := { sample_lib with
      hamming_distance := far_hamming
      fuzz_ratio := fun _ _ => Except.ok (-5) } }

/-! ## Messages and columns of a trace -/

/-- The texts of the `SF_display` calls of a trace, in order. -/
def displays (tr : List Effect) : List String :=
  tr.filterMap (fun e =>
    match e with
    | Effect.display msg => some msg
    | _ => none)

/-- The values stored into variable `var`, in the order of the calls. -/
def column (tr : List Effect) (var : Int) : List ℚ :=
  (vstores tr).filterMap (fun w => if w.1 = var then some w.2.2 else none)

/-- The `(best score, best index)` pairs of a match trace: the values stored
into variable 2 paired, in order, with the values stored into variable 3. -/
def result_pairs (tr : List Effect) : List (ℚ × ℚ) :=
  (column tr 2).zip (column tr 3)

/-- The table of a match call: one string variable holding the master strings
followed by the reference strings, and two numeric variables. -/
def match_table (master ref : List String) : Dataset where
  nobs := master.length + ref.length
  nvar := 3
  sdata := fun var obs =>
    if var = 1 then (master ++ ref).getD (obs.toNat - 1) "" else ""

/-! ## Reading a progress message -/

/-- The number written by a string of decimal digits. -/
def digits_value (cs : List Char) : Nat :=
  cs.foldl (fun acc c => 10 * acc + (c.toNat - 48)) 0

/-- The first number of a progress message: the digits that follow its first
10 characters (`  matched `). -/
def msg_done (msg : String) : Nat :=
  digits_value ((msg.data.drop 10).takeWhile Char.isDigit)

/-- The second number of a progress message: the digits that follow the 4
characters (` of `) after the first number. -/
def msg_total (msg : String) : Nat :=
  digits_value
    ((((msg.data.drop 10).dropWhile Char.isDigit).drop 4).takeWhile Char.isDigit)

/-! ## More environments for the examples -/

/-- Reads a decimal numeral with an optional minus sign, as `atoi` does. -/
def signed_atoi (s : String) : Int :=
  match s.data with
  | '-' :: rest => -((digits_value rest : Nat) : Int)
  | _ => sample_atoi s

/-- The sample environment with an `atoi` that reads negative numerals. -/
def signed_env : Env :=
  { sample_env with atoi := signed_atoi }

/-- The `double` nearest to `0.07`: `1261007895663739 / 2^54`. -/
def double_seven_hundredths : ℚ :=
  1261007895663739 / 18014398509481984

/-- The sample environment with a Jaro similarity that returns the `double`
nearest to `0.07` for every pair. -/
def seven_env : Env :=
  { sample_env with
    lib := { sample_lib with
      jaro_similarity := fun _ _ => Except.ok double_seven_hundredths } }

/-! ## The inner loop -/

theorem better_irrefl (hb : Bool) (s : ℚ) : ¬ better hb s s := by
  cases hb <;> simp [better]

theorem better_trans {hb : Bool} {a b c : ℚ} (h1 : better hb a b)
    (h2 : better hb b c) : better hb a c := by
  cases hb <;> simp [better] at * <;> linarith

theorem better_asymm {hb : Bool} {a b : ℚ} (h : better hb a b) :
    ¬ better hb b a := by
  cases hb <;> simp [better] at * <;> linarith

theorem better_of_not_better {hb : Bool} {a b c : ℚ} (h1 : ¬ better hb a b)
    (h2 : better hb c b) : better hb c a := by
  cases hb <;> simp [better] at * <;> linarith

theorem not_better_of_better {hb : Bool} {a b c : ℚ} (h1 : ¬ better hb a b)
    (h2 : better hb c b) : ¬ better hb a c := by
  cases hb <;> simp [better] at * <;> linarith

/-- One pass of the inner loop either leaves the state alone (the score is
missing or does not beat `best`) or installs the score and its index. -/
theorem scan_step_cases (env : Env) (method : Method) (pw : ℚ) (hb : Bool)
    (m : String) (st : ℚ × Nat) (j : Nat) (r : String) :
    (scan_step env method pw hb m st j r = st ∧
      (env.SF_is_missing (compute_score env m r method pw) = true ∨
        ¬ better hb (compute_score env m r method pw) st.1)) ∨
    (scan_step env method pw hb m st j r = (compute_score env m r method pw, j) ∧
      env.SF_is_missing (compute_score env m r method pw) = false ∧
      better hb (compute_score env m r method pw) st.1) := by
  unfold scan_step
  by_cases hmiss : env.SF_is_missing (compute_score env m r method pw) = true
  · left
    simp [hmiss]
  · have hmiss2 : env.SF_is_missing (compute_score env m r method pw) = false := by
      simpa using hmiss
    by_cases hbet : better hb (compute_score env m r method pw) st.1
    · right
      have hbet2 := hbet
      unfold better at hbet2
      simp [hmiss2, hbet2, hbet]
    · left
      have hbet2 := hbet
      unfold better at hbet2
      simp [hmiss2, hbet2, hbet]

/-- What the inner loop computes from state `st` over the references `refs`,
the first of which has index `j0`: either no score beats `st.1` and the state
is unchanged, or the result is the score and index of the first reference
whose non-missing score is extreme among the non-missing scores. -/
theorem scan_refs_spec (env : Env) (method : Method) (pw : ℚ) (hb : Bool)
    (m : String) (refs : List String) :
    ∀ (j0 : Nat) (st : ℚ × Nat),
      (scan_refs env method pw hb m refs j0 st = st ∧
        ∀ r ∈ refs, env.SF_is_missing (compute_score env m r method pw) = true ∨
          ¬ better hb (compute_score env m r method pw) st.1) ∨
      (∃ k r, refs[k]? = some r ∧
        scan_refs env method pw hb m refs j0 st =
          (compute_score env m r method pw, j0 + k) ∧
        env.SF_is_missing (compute_score env m r method pw) = false ∧
        better hb (compute_score env m r method pw) st.1 ∧
        (∀ r' ∈ refs, env.SF_is_missing (compute_score env m r' method pw) = false →
          ¬ better hb (compute_score env m r' method pw)
              (compute_score env m r method pw)) ∧
        (∀ k' r', k' < k → refs[k']? = some r' →
          env.SF_is_missing (compute_score env m r' method pw) = true ∨
          better hb (compute_score env m r method pw)
            (compute_score env m r' method pw))) := by
  induction refs with
  | nil =>
    intro j0 st
    left
    simp [scan_refs]
  | cons r rest ih =>
    intro j0 st
    simp only [scan_refs]
    rcases scan_step_cases env method pw hb m st j0 r with ⟨hst, hno⟩ | ⟨hst, hnm, hbt⟩
    · rw [hst]
      rcases ih (j0 + 1) st with ⟨hres, hall⟩ | ⟨k, r1, hk, hres, hnm1, hbt1, hmax, htie⟩
      · left
        refine ⟨hres, ?_⟩
        intro r' hr'
        rcases List.mem_cons.mp hr' with rfl | hin
        · exact hno
        · exact hall r' hin
      · right
        refine ⟨k + 1, r1, by simpa using hk, ?_, hnm1, hbt1, ?_, ?_⟩
        · rw [hres]
          congr 1
          omega
        · intro r' hr' hnm'
          rcases List.mem_cons.mp hr' with rfl | hin
          · rcases hno with hmiss | hnb
            · rw [hmiss] at hnm'
              exact absurd hnm' (by simp)
            · exact not_better_of_better hnb hbt1
          · exact hmax r' hin hnm'
        · intro k' r' hlt hget
          cases k' with
          | zero =>
            simp at hget
            subst hget
            rcases hno with hmiss | hnb
            · exact Or.inl hmiss
            · exact Or.inr (better_of_not_better hnb hbt1)
          | succ k'' =>
            simp at hget
            exact htie k'' r' (by omega) hget
    · rw [hst]
      rcases ih (j0 + 1) (compute_score env m r method pw, j0) with
        ⟨hres, hall⟩ | ⟨k, r1, hk, hres, hnm1, hbt1, hmax, htie⟩
      · right
        refine ⟨0, r, by simp, ?_, hnm, hbt, ?_, ?_⟩
        · rw [hres]
          rfl
        · intro r' hr' hnm'
          rcases List.mem_cons.mp hr' with rfl | hin
          · exact better_irrefl hb _
          · rcases hall r' hin with hmiss | hnb
            · rw [hmiss] at hnm'
              exact absurd hnm' (by simp)
            · exact hnb
        · intro k' r' hlt
          omega
      · right
        have hbt1' : better hb (compute_score env m r1 method pw)
            (compute_score env m r method pw) := hbt1
        refine ⟨k + 1, r1, by simpa using hk, ?_, hnm1, better_trans hbt1' hbt, ?_, ?_⟩
        · rw [hres]
          congr 1
          omega
        · intro r' hr' hnm'
          rcases List.mem_cons.mp hr' with rfl | hin
          · exact better_asymm hbt1'
          · exact hmax r' hin hnm'
        · intro k' r' hlt hget
          cases k' with
          | zero =>
            simp at hget
            subst hget
            exact Or.inr hbt1'
          | succ k'' =>
            simp at hget
            exact htie k'' r' (by omega) hget

/-! ## The outer loop and its trace -/

theorem vstores_append (a b : List Effect) :
    vstores (a ++ b) = vstores a ++ vstores b := by
  simp [vstores, List.filterMap_append]

theorem stores_at_append (a b : List Effect) (obs : Int) :
    stores_at (a ++ b) obs = stores_at a obs ++ stores_at b obs := by
  simp [stores_at, vstores_append, List.filterMap_append]

/-- The stores of one master record: both go to observation `i + 1`. -/
theorem stores_at_record_effects (n_master report_every : Int) (i : Nat)
    (res : ℚ × Nat) (obs : Int) :
    stores_at (record_effects n_master report_every i res) obs =
      if (i : Int) + 1 = obs then [(2, res.1), (3, ((res.2 + 1 : Nat) : ℚ))] else [] := by
  unfold record_effects
  by_cases hobs : (i : Int) + 1 = obs
  · by_cases hrep : Int.tmod ((i : Int) + 1) report_every = 0 <;>
      simp [stores_at, vstores, hobs, hrep]
  · by_cases hrep : Int.tmod ((i : Int) + 1) report_every = 0 <;>
      simp [stores_at, vstores, hobs, hrep]

/-- The loop started at record `i0` stores nothing at observations up to `i0`. -/
theorem stores_at_match_loop_before (env : Env) (method : Method) (pw : ℚ)
    (hb : Bool) (ref : List String) (n_master report_every : Int)
    (master : List String) :
    ∀ (i0 : Nat) (obs : Int), obs ≤ (i0 : Int) →
      stores_at (match_loop env method pw hb ref n_master report_every master i0) obs
        = [] := by
  induction master with
  | nil =>
    intro i0 obs _
    simp [match_loop, stores_at, vstores]
  | cons m rest ih =>
    intro i0 obs hle
    simp only [match_loop]
    rw [stores_at_append, stores_at_record_effects, ih (i0 + 1) obs (by push_cast; omega)]
    have hne : ¬ ((i0 : Int) + 1 = obs) := by omega
    simp [hne]

/-- The stores of the loop at the observation of master record `i`: the best
score into variable 2, then the 1-based best index into variable 3. -/
theorem stores_at_match_loop (env : Env) (method : Method) (pw : ℚ)
    (hb : Bool) (ref : List String) (n_master report_every : Int)
    (master : List String) :
    ∀ (i0 i : Nat) (m : String), master[i]? = some m →
      stores_at (match_loop env method pw hb ref n_master report_every master i0)
          ((i0 : Int) + (i : Int) + 1) =
        [(2, (best_match env method pw hb ref m).1),
         (3, (((best_match env method pw hb ref m).2 + 1 : Nat) : ℚ))] := by
  induction master with
  | nil =>
    intro i0 i m hm
    simp at hm
  | cons m0 rest ih =>
    intro i0 i m hm
    simp only [match_loop]
    rw [stores_at_append, stores_at_record_effects]
    cases i with
    | zero =>
      simp at hm
      subst hm
      rw [stores_at_match_loop_before env method pw hb ref n_master report_every rest
        (i0 + 1) _ (by push_cast; omega)]
      simp
    | succ i1 =>
      simp at hm
      have hne : ¬ ((i0 : Int) + 1 = (i0 : Int) + ((i1 + 1 : Nat) : Int) + 1) := by
        push_cast
        omega
      have hrw : (i0 : Int) + ((i1 + 1 : Nat) : Int) + 1 =
          ((i0 + 1 : Nat) : Int) + (i1 : Int) + 1 := by
        push_cast
        ring
      rw [if_neg hne, hrw, ih (i0 + 1) i1 m hm]
      simp

/-- The loop performs exactly two stores per master record. -/
theorem vstores_match_loop_length (env : Env) (method : Method) (pw : ℚ)
    (hb : Bool) (ref : List String) (n_master report_every : Int)
    (master : List String) :
    ∀ i0 : Nat,
      (vstores (match_loop env method pw hb ref n_master report_every master i0)).length
        = 2 * master.length := by
  induction master with
  | nil =>
    intro i0
    simp [match_loop, vstores]
  | cons m rest ih =>
    intro i0
    simp only [match_loop]
    rw [vstores_append, List.length_append, ih (i0 + 1)]
    unfold record_effects
    by_cases hrep : Int.tmod ((i0 : Int) + 1) report_every = 0 <;>
      simp [vstores, hrep] <;> omega

/-! ## Argument handling -/

/-- With a catalog method, non-negative counts and a matching observation
count, `do_match` runs the loop over the strings it read and returns 0. -/
theorem do_match_ok (env : Env) (ds : Dataset) (mode name a2 a3 : String)
    (opts : List String) (hname : parse_method name ≠ M_INVALID)
    (h2 : 0 ≤ env.atoi a2) (h3 : 0 ≤ env.atoi a3)
    (hobs : (ds.nobs : Int) = env.atoi a2 + env.atoi a3) :
    do_match env ds (mode :: name :: a2 :: a3 :: opts) =
      Except.ok ⟨0, match_loop env (parse_method name) (parse_flags env opts).2
        (is_similarity_method (parse_method name))
        (read_block ds (parse_flags env opts).1 (env.atoi a2) (env.atoi a3))
        (env.atoi a2) (report_interval (env.atoi a2))
        (read_block ds (parse_flags env opts).1 0 (env.atoi a2)) 0⟩ := by
  have hneg : ¬ (env.atoi a2 < 0 ∨ env.atoi a3 < 0) := by omega
  simp [do_match, hname, hobs, hneg]

theorem read_block_length (ds : Dataset) (nocase : Bool) (first count : Int) :
    (read_block ds nocase first count).length = count.toNat := by
  simp [read_block]

theorem read_block_getElem? (ds : Dataset) (nocase : Bool) (first count : Int)
    (k : Nat) (hk : (k : Int) < count) :
    (read_block ds nocase first count)[k]? =
      some (if nocase then to_lower (ds.sdata 1 (first + (k : Int) + 1))
            else ds.sdata 1 (first + (k : Int) + 1)) := by
  have hk2 : k < count.toNat := by omega
  simp [read_block, read_string, List.getElem?_range hk2, hk2]

/-- The option loop sets `nocase` exactly when some option is `nocase`. -/
theorem foldl_flag_step_fst (env : Env) (opts : List String) :
    ∀ st : Bool × ℚ,
      (opts.foldl (flag_step env) st).1 = (st.1 || decide ("nocase" ∈ opts)) := by
  induction opts with
  | nil =>
    intro st
    simp
  | cons a rest ih =>
    intro st
    simp only [List.foldl_cons]
    rw [ih]
    unfold flag_step
    by_cases ha : a = "nocase"
    · simp [ha]
    · have ha2 : ¬ ("nocase" = a) := fun h => ha h.symm
      by_cases hp : has_pw_tag a = true <;> simp [ha, ha2, hp]

theorem parse_flags_nocase (env : Env) (opts : List String) :
    (parse_flags env opts).1 = decide ("nocase" ∈ opts) := by
  unfold parse_flags
  rw [foldl_flag_step_fst]
  simp

/-- The `pw` left by the option loop does not depend on the flag it started
from. -/
theorem foldl_flag_step_snd (env : Env) (opts : List String) :
    ∀ st st2 : Bool × ℚ, st.2 = st2.2 →
      (opts.foldl (flag_step env) st).2 = (opts.foldl (flag_step env) st2).2 := by
  induction opts with
  | nil =>
    intro st st2 h
    simpa using h
  | cons a rest ih =>
    intro st st2 h
    simp only [List.foldl_cons]
    apply ih
    unfold flag_step
    by_cases ha : a = "nocase"
    · simp [ha, h]
    · by_cases hp : has_pw_tag a = true <;> simp [ha, hp, h]

/-- Dropping the `nocase` options changes neither `pw` nor anything but the
flag itself. -/
theorem foldl_flag_step_filter (env : Env) (opts : List String) :
    ∀ st : Bool × ℚ,
      (opts.filter (fun a => decide (a ≠ "nocase"))).foldl (flag_step env) st =
        (st.1, (opts.foldl (flag_step env) st).2) := by
  induction opts with
  | nil =>
    intro st
    simp
  | cons a rest ih =>
    intro st
    by_cases ha : a = "nocase"
    · subst ha
      simp only [List.foldl_cons]
      have hf : List.filter (fun a => decide (a ≠ "nocase")) ("nocase" :: rest) =
          List.filter (fun a => decide (a ≠ "nocase")) rest := by
        simp
      rw [hf, ih st]
      congr 1
      apply foldl_flag_step_snd
      simp [flag_step]
    · have hf : List.filter (fun a => decide (a ≠ "nocase")) (a :: rest) =
          a :: List.filter (fun a => decide (a ≠ "nocase")) rest := by
        simp [ha]
      rw [hf]
      simp only [List.foldl_cons]
      rw [ih (flag_step env st a)]
      congr 1
      unfold flag_step
      by_cases hp : has_pw_tag a = true <;> simp [ha, hp]

theorem parse_flags_filter (env : Env) (opts : List String) :
    parse_flags env (opts.filter (fun a => decide (a ≠ "nocase"))) =
      (false, (parse_flags env opts).2) := by
  unfold parse_flags
  rw [foldl_flag_step_filter]

/-! ## Reading a successful `do_match` call -/

/-- The trace of a successful `do_match` call, read at master record `i`. -/
theorem do_match_stores (env : Env) (ds : Dataset) (mode name a2 a3 : String)
    (opts : List String) (hname : parse_method name ≠ M_INVALID)
    (h2 : 0 ≤ env.atoi a2) (h3 : 0 ≤ env.atoi a3)
    (hobs : (ds.nobs : Int) = env.atoi a2 + env.atoi a3)
    (i : Nat) (m : String) (hm : (master_of env ds a2 opts)[i]? = some m) :
    ∃ tr, do_match env ds (mode :: name :: a2 :: a3 :: opts) = Except.ok ⟨0, tr⟩ ∧
      stores_at tr ((i : Int) + 1) =
        [(2, (best_match env (parse_method name) (parse_flags env opts).2
              (is_similarity_method (parse_method name)) (ref_of env ds a2 a3 opts) m).1),
         (3, (((best_match env (parse_method name) (parse_flags env opts).2
              (is_similarity_method (parse_method name)) (ref_of env ds a2 a3 opts) m).2
              + 1 : Nat) : ℚ))] := by
  refine ⟨_, do_match_ok env ds mode name a2 a3 opts hname h2 h3 hobs, ?_⟩
  have h := stores_at_match_loop env (parse_method name) (parse_flags env opts).2
    (is_similarity_method (parse_method name)) (ref_of env ds a2 a3 opts)
    (env.atoi a2) (report_interval (env.atoi a2)) (master_of env ds a2 opts) 0 i m hm
  simpa [master_of, ref_of] using h

/-- When every comparison is missing the inner loop leaves its state alone. -/
theorem scan_refs_all_missing (env : Env) (method : Method) (pw : ℚ) (hb : Bool)
    (m : String) (refs : List String)
    (hall : ∀ r ∈ refs, env.SF_is_missing (compute_score env m r method pw) = true) :
    ∀ (j0 : Nat) (st : ℚ × Nat), scan_refs env method pw hb m refs j0 st = st := by
  induction refs with
  | nil =>
    intro j0 st
    rfl
  | cons r rest ih =>
    intro j0 st
    have hr : env.SF_is_missing (compute_score env m r method pw) = true :=
      hall r (List.mem_cons_self r rest)
    simp only [scan_refs]
    have hstep : scan_step env method pw hb m st j0 r = st := by
      simp [scan_step, hr]
    rw [hstep]
    exact ih (fun r' hr' => hall r' (List.mem_cons_of_mem r hr')) (j0 + 1) st

/-- A score in `[0, 1e18)` beats the initial value of `best` in either
direction. -/
theorem better_init (hb : Bool) (s : ℚ) (h0 : 0 ≤ s) (h1 : s < 1000000000000000000) :
    better hb s (if hb = true then -1 else 1000000000000000000) := by
  cases hb
  · simpa [better] using h1
  · simp only [better, if_true]
    linarith

/-! ## Case folding -/

theorem char_le_iff_toNat (a b : Char) : a ≤ b ↔ a.toNat ≤ b.toNat := by
  rw [Char.le_def, UInt32.le_def, BitVec.le_def]
  rfl

/-- A property of the 26 upper-case letters can be checked letter by letter. -/
theorem upper_case_cases (P : Char → Prop)
    (h : ∀ n : Nat, 65 ≤ n → n ≤ 90 → P (Char.ofNat n))
    (c : Char) (hc : 'A' ≤ c ∧ c ≤ 'Z') : P c := by
  have h1 : 65 ≤ c.toNat := by
    have := (char_le_iff_toNat 'A' c).mp hc.1
    simpa using this
  have h2 : c.toNat ≤ 90 := by
    have := (char_le_iff_toNat c 'Z').mp hc.2
    simpa using this
  have := h c.toNat h1 h2
  simpa using this

theorem tolower_upper (c : Char) (hc : 'A' ≤ c ∧ c ≤ 'Z') :
    (tolower c).toNat = c.toNat + 32 ∧ 'a' ≤ tolower c ∧ tolower c ≤ 'z' ∧
      tolower (tolower c) = tolower c ∧ (tolower c).utf8Size = c.utf8Size := by
  refine upper_case_cases (fun c => (tolower c).toNat = c.toNat + 32 ∧
    'a' ≤ tolower c ∧ tolower c ≤ 'z' ∧ tolower (tolower c) = tolower c ∧
    (tolower c).utf8Size = c.utf8Size) ?_ c hc
  intro n h1 h2
  interval_cases n <;> decide

theorem tolower_other (c : Char) (hc : ¬ ('A' ≤ c ∧ c ≤ 'Z')) : tolower c = c := by
  simp [tolower, hc]

theorem tolower_idem (c : Char) : tolower (tolower c) = tolower c := by
  by_cases hc : 'A' ≤ c ∧ c ≤ 'Z'
  · exact (tolower_upper c hc).2.2.2.1
  · rw [tolower_other c hc, tolower_other c hc]

theorem tolower_utf8Size (c : Char) : (tolower c).utf8Size = c.utf8Size := by
  by_cases hc : 'A' ≤ c ∧ c ≤ 'Z'
  · exact (tolower_upper c hc).2.2.2.2
  · rw [tolower_other c hc]

theorem to_lower_idem (s : String) : to_lower (to_lower s) = to_lower s := by
  unfold to_lower
  simp only [List.map_map]
  congr 1
  apply List.map_congr_left
  intro c _
  simp [tolower_idem]

theorem utf8Len_map_tolower (cs : List Char) :
    String.utf8Len (cs.map tolower) = String.utf8Len cs := by
  induction cs with
  | nil => rfl
  | cons c rest ih =>
    simp [ih, tolower_utf8Size]

theorem to_lower_utf8ByteSize (s : String) :
    (to_lower s).utf8ByteSize = s.utf8ByteSize := by
  cases s with
  | mk cs => simp [to_lower, utf8Len_map_tolower]

theorem read_block_lower_table (ds : Dataset) (first count : Int) :
    read_block ds true first count = read_block (lower_table ds) false first count := by
  simp [read_block, read_string, lower_table]

/-! ## Rows of the pairwise trace -/

theorem stores_at_rows_beyond (g : Nat → ℚ) (n : Nat) :
    ∀ i : Nat, n ≤ i →
      stores_at ((List.range n).map
        (fun (k : Nat) => Effect.vstore 3 ((k : Int) + 1) (g k))) ((i : Int) + 1) = [] := by
  induction n with
  | zero =>
    intro i _
    simp [stores_at, vstores]
  | succ n ih =>
    intro i hi
    rw [List.range_succ, List.map_append, stores_at_append, ih i (by omega)]
    have hne : ¬ ((n : Int) = (i : Int)) := by omega
    simp [stores_at, vstores, hne]

theorem stores_at_rows (g : Nat → ℚ) (n : Nat) :
    ∀ i : Nat, i < n →
      stores_at ((List.range n).map
        (fun (k : Nat) => Effect.vstore 3 ((k : Int) + 1) (g k))) ((i : Int) + 1)
        = [(3, g i)] := by
  induction n with
  | zero =>
    intro i hi
    omega
  | succ n ih =>
    intro i hi
    rw [List.range_succ, List.map_append, stores_at_append]
    by_cases hin : i < n
    · rw [ih i hin]
      have hne : ¬ ((n : Int) = (i : Int)) := by omega
      simp [stores_at, vstores, hne]
    · have hin2 : i = n := by omega
      subst hin2
      rw [stores_at_rows_beyond g i i (le_refl i)]
      simp [stores_at, vstores]

/-! ## Theorems: the metric registry -/

/-- C3: `parse_method` returns a metric other than `M_INVALID` exactly for the
22 catalog names, compared exactly and case-sensitively; the 22 names go to the
22 enumerators in declaration order, hence to pairwise distinct metrics; and
every other string (the empty string, `Ratio`, the proper prefix `rati`, the
extension `ratios`) yields `M_INVALID`. -/
theorem parse_method_catalog :
    (∀ name : String, parse_method name ≠ M_INVALID ↔ name ∈ catalog) ∧
    catalog.length = 22 ∧
    catalog.map parse_method =
      [ M_RATIO, M_PARTIAL_RATIO, M_TOKEN_SORT, M_PARTIAL_TOKEN_SORT, M_TOKEN_SET,
        M_PARTIAL_TOKEN_SET, M_TOKEN_RATIO, M_PARTIAL_TOKEN_RATIO, M_WRATIO,
        M_QRATIO, M_JARO, M_JARO_WINKLER, M_NORM_LEV, M_NORM_OSA, M_NORM_HAMMING,
        M_NORM_INDEL, M_NORM_LCSSEQ, M_LEVENSHTEIN, M_OSA, M_HAMMING, M_INDEL,
        M_LCSSEQ] ∧
    (catalog.map parse_method).Nodup ∧
    (∀ name : String, name ∉ catalog → parse_method name = M_INVALID) ∧
    parse_method "" = M_INVALID ∧
    parse_method "Ratio" = M_INVALID ∧
    parse_method "rati" = M_INVALID ∧
    parse_method "ratios" = M_INVALID := by
  have hin : ∀ name ∈ catalog, parse_method name ≠ M_INVALID := by decide
  have hout : ∀ name : String, name ∉ catalog → parse_method name = M_INVALID := by
    intro name hnot
    simp only [catalog, similarity_names, distance_names, List.cons_append,
      List.nil_append, List.mem_cons, List.mem_singleton, not_or] at hnot
    simp [parse_method, hnot]
  refine ⟨?_, by decide, by decide, by decide, hout, by decide, by decide, by decide,
    by decide⟩
  intro name
  constructor
  · intro hne
    by_contra hnot
    exact hne (hout name hnot)
  · exact hin name

/-- C4: the optimization direction follows group membership. Each of the 17
similarity-percent names parses to a metric for which `is_similarity_method`
holds, so that the test of `do_match` is `s > best`; each of the 5 raw-distance
names parses to one for which it fails, so that the test is `s < best`.
Equivalently the similarity metrics are ordered at or before `M_NORM_LCSSEQ` in
the enumeration and the raw-distance metrics strictly after it. -/
theorem direction_follows_group :
    similarity_names.length = 17 ∧ distance_names.length = 5 ∧
    (∀ name ∈ similarity_names, is_similarity_method (parse_method name) = true) ∧
    (∀ name ∈ distance_names, is_similarity_method (parse_method name) = false) ∧
    (∀ name ∈ similarity_names, ∀ s best : ℚ,
      better (is_similarity_method (parse_method name)) s best ↔ s > best) ∧
    (∀ name ∈ distance_names, ∀ s best : ℚ,
      better (is_similarity_method (parse_method name)) s best ↔ s < best) ∧
    (∀ m : Method, is_similarity_method m = true ↔
      m.toNat ≤ Method.toNat M_NORM_LCSSEQ) ∧
    (∀ name ∈ similarity_names,
      (parse_method name).toNat ≤ Method.toNat M_NORM_LCSSEQ) ∧
    (∀ name ∈ distance_names,
      Method.toNat M_NORM_LCSSEQ < (parse_method name).toNat ∧
      parse_method name ≠ M_INVALID) := by
  have hsim : ∀ name ∈ similarity_names,
      is_similarity_method (parse_method name) = true := by decide
  have hdist : ∀ name ∈ distance_names,
      is_similarity_method (parse_method name) = false := by decide
  refine ⟨by decide, by decide, hsim, hdist, ?_, ?_, ?_, by decide, by decide⟩
  · intro name hn s best
    simp [better, hsim name hn]
  · intro name hn s best
    simp [better, hdist name hn]
  · intro m
    simp [is_similarity_method]

/-! ## Theorems: the score adapter -/

/-- C10: the prefix weight is consumed only by Jaro-Winkler: for every other
method the score is the same whatever the prefix weight. -/
theorem pw_only_jaro_winkler (env : Env) (s1 s2 : String) (method : Method)
    (pw1 pw2 : ℚ) (h : method ≠ M_JARO_WINKLER) :
    compute_score env s1 s2 method pw1 = compute_score env s1 s2 method pw2 := by
  cases method <;> simp_all [compute_score, score_switch]

/-- A concrete instance: normalized Levenshtein on `abc`, `abd` with the prefix
weights 0.1 and 0.25. -/
theorem pw_only_jaro_winkler_witness :
    M_NORM_LEV ≠ M_JARO_WINKLER ∧
    compute_score sample_env "abc" "abd" M_NORM_LEV (1 / 10) =
      compute_score sample_env "abc" "abd" M_NORM_LEV (1 / 4) :=
  ⟨by decide, pw_only_jaro_winkler sample_env "abc" "abd" M_NORM_LEV (1 / 10) (1 / 4)
    (by decide)⟩

/-! ## Theorems: the best-match search -/

/-- C1: in a successful `do_match` call, for a master record `i` with at least
one non-missing comparison and all non-missing scores in `[0, 1e18)`, the two
stores of the record are the score of some reference `k - 1` into variable 2
and `k` into variable 3, where `1 <= k <= n_ref`, that score is not missing,
and it is the maximum of the non-missing scores for a similarity metric and
their minimum for a raw-distance metric. -/
theorem do_match_writes_extreme (env : Env) (ds : Dataset)
    (mode name a2 a3 : String) (opts : List String)
    (hname : parse_method name ≠ M_INVALID)
    (h2 : 0 ≤ env.atoi a2) (h3 : 0 ≤ env.atoi a3)
    (hobs : (ds.nobs : Int) = env.atoi a2 + env.atoi a3)
    (i : Nat) (m : String) (hm : (master_of env ds a2 opts)[i]? = some m)
    (hsome : ∃ r ∈ ref_of env ds a2 a3 opts,
      env.SF_is_missing (pair_score env name opts m r) = false)
    (hrange : ∀ r ∈ ref_of env ds a2 a3 opts,
      env.SF_is_missing (pair_score env name opts m r) = false →
      0 ≤ pair_score env name opts m r ∧
      pair_score env name opts m r < 1000000000000000000) :
    ∃ (tr : List Effect) (k : Nat) (r : String),
      do_match env ds (mode :: name :: a2 :: a3 :: opts) = Except.ok ⟨0, tr⟩ ∧
      1 ≤ k ∧ (k : Int) ≤ env.atoi a3 ∧
      (ref_of env ds a2 a3 opts)[k - 1]? = some r ∧
      stores_at tr ((i : Int) + 1) = [(2, pair_score env name opts m r), (3, (k : ℚ))] ∧
      env.SF_is_missing (pair_score env name opts m r) = false ∧
      (∀ r2 ∈ ref_of env ds a2 a3 opts,
        env.SF_is_missing (pair_score env name opts m r2) = false →
        if is_similarity_method (parse_method name) = true
        then pair_score env name opts m r2 ≤ pair_score env name opts m r
        else pair_score env name opts m r ≤ pair_score env name opts m r2) := by
  obtain ⟨tr, hrun, hst⟩ := do_match_stores env ds mode name a2 a3 opts hname h2 h3 hobs i m hm
  obtain ⟨r0, hr0, hnm0⟩ := hsome
  rcases scan_refs_spec env (parse_method name) (parse_flags env opts).2
      (is_similarity_method (parse_method name)) m (ref_of env ds a2 a3 opts) 0
      (if is_similarity_method (parse_method name) = true then -1
        else 1000000000000000000, 0) with
    ⟨_, hall⟩ | ⟨k, r, hk, hres, hnm, _, hmax, _⟩
  · exfalso
    rcases hall r0 hr0 with hmiss | hnb
    · have hnm0' : env.SF_is_missing
          (compute_score env m r0 (parse_method name) (parse_flags env opts).2) = false :=
        hnm0
      rw [hmiss] at hnm0'
      exact absurd hnm0' (by simp)
    · exact hnb (better_init _ _ (hrange r0 hr0 hnm0).1 (hrange r0 hr0 hnm0).2)
  · have hklt : k < (ref_of env ds a2 a3 opts).length :=
      (List.getElem?_eq_some.mp hk).1
    have hlen : (ref_of env ds a2 a3 opts).length = (env.atoi a3).toNat := by
      simp [ref_of, read_block_length]
    refine ⟨tr, k + 1, r, hrun, by omega, by omega, by simpa using hk, ?_, hnm, ?_⟩
    · rw [hst]
      have hbm : best_match env (parse_method name) (parse_flags env opts).2
          (is_similarity_method (parse_method name)) (ref_of env ds a2 a3 opts) m =
          (compute_score env m r (parse_method name) (parse_flags env opts).2, 0 + k) := by
        unfold best_match
        exact hres
      rw [hbm]
      simp [pair_score]
    · intro r2 hr2 hnm2
      have hnb := hmax r2 hr2 hnm2
      by_cases hsim : is_similarity_method (parse_method name) = true
      · simp only [hsim, if_true]
        simp only [better, hsim, if_true, not_lt] at hnb
        exact hnb
      · have hsim2 : is_similarity_method (parse_method name) = false := by
          simpa using hsim
        simp only [hsim2]
        simp only [better, hsim2, not_lt] at hnb
        simpa [pair_score] using hnb

/-- A concrete instance: Hamming match of the master `abc` (of two masters)
against the references `abd`, `ab`, `abc`, the second of which is missing. -/
theorem do_match_writes_extreme_witness :
    ∃ (tr : List Effect) (k : Nat) (r : String),
      do_match sample_env (sample_table ["abc", "xyz", "abd", "ab", "abc"] [] 3)
        ["match", "hamming", "2", "3"] = Except.ok ⟨0, tr⟩ ∧
      1 ≤ k ∧ (k : Int) ≤ sample_env.atoi "3" ∧
      (ref_of sample_env (sample_table ["abc", "xyz", "abd", "ab", "abc"] [] 3)
        "2" "3" [])[k - 1]? = some r ∧
      stores_at tr ((0 : Nat) + 1) =
        [(2, pair_score sample_env "hamming" [] "abc" r), (3, (k : ℚ))] ∧
      sample_env.SF_is_missing (pair_score sample_env "hamming" [] "abc" r) = false ∧
      (∀ r2 ∈ ref_of sample_env (sample_table ["abc", "xyz", "abd", "ab", "abc"] [] 3)
          "2" "3" [],
        sample_env.SF_is_missing (pair_score sample_env "hamming" [] "abc" r2) = false →
        if is_similarity_method (parse_method "hamming") = true
        then pair_score sample_env "hamming" [] "abc" r2 ≤
          pair_score sample_env "hamming" [] "abc" r
        else pair_score sample_env "hamming" [] "abc" r ≤
          pair_score sample_env "hamming" [] "abc" r2) :=
  do_match_writes_extreme sample_env
    (sample_table ["abc", "xyz", "abd", "ab", "abc"] [] 3) "match" "hamming" "2" "3" []
    (by decide) (by decide) (by decide) (by decide) 0 "abc" (by decide)
    ⟨"abd", by decide, by decide⟩ (by decide)

/-- C8: the degenerate fallback of `do_match`. In a successful call (return
code 0), for a master record all of whose comparisons are missing, and for
every master record when `n_ref = 0`, the stores of the record are the initial
value of `best` (`-1.0` for a similarity metric, `1e18` for a raw-distance
metric) into variable 2 and the index 1 into variable 3. -/
theorem do_match_degenerate (env : Env) (ds : Dataset)
    (mode name a2 a3 : String) (opts : List String)
    (hname : parse_method name ≠ M_INVALID)
    (h2 : 0 ≤ env.atoi a2) (h3 : 0 ≤ env.atoi a3)
    (hobs : (ds.nobs : Int) = env.atoi a2 + env.atoi a3)
    (i : Nat) (m : String) (hm : (master_of env ds a2 opts)[i]? = some m)
    (hall : env.atoi a3 = 0 ∨ ∀ r ∈ ref_of env ds a2 a3 opts,
      env.SF_is_missing (pair_score env name opts m r) = true) :
    ∃ tr : List Effect,
      do_match env ds (mode :: name :: a2 :: a3 :: opts) = Except.ok ⟨0, tr⟩ ∧
      stores_at tr ((i : Int) + 1) =
        [(2, if is_similarity_method (parse_method name) = true then -1
             else 1000000000000000000),
         (3, 1)] := by
  obtain ⟨tr, hrun, hst⟩ := do_match_stores env ds mode name a2 a3 opts hname h2 h3 hobs i m hm
  refine ⟨tr, hrun, ?_⟩
  have hall2 : ∀ r ∈ ref_of env ds a2 a3 opts,
      env.SF_is_missing (compute_score env m r (parse_method name)
        (parse_flags env opts).2) = true := by
    rcases hall with hzero | hmiss
    · intro r hr
      have hlen : (ref_of env ds a2 a3 opts).length = 0 := by
        simp [ref_of, read_block_length, hzero]
      have hnil : ref_of env ds a2 a3 opts = [] := List.length_eq_zero.mp hlen
      rw [hnil] at hr
      simp at hr
    · exact hmiss
  have hbm : best_match env (parse_method name) (parse_flags env opts).2
      (is_similarity_method (parse_method name)) (ref_of env ds a2 a3 opts) m =
      (if is_similarity_method (parse_method name) = true then -1
        else 1000000000000000000, 0) := by
    unfold best_match
    exact scan_refs_all_missing env _ _ _ m _ hall2 0 _
  rw [hst, hbm]
  simp

/-- A concrete instance: Hamming match of the master `abc` against `ab` and
`abcd`, both of another length, so that both comparisons are missing. -/
theorem do_match_degenerate_witness :
    ∃ tr : List Effect,
      do_match sample_env (sample_table ["abc", "ab", "abcd"] [] 3)
        ["match", "hamming", "1", "2"] = Except.ok ⟨0, tr⟩ ∧
      stores_at tr ((0 : Nat) + 1) =
        [(2, if is_similarity_method (parse_method "hamming") = true then -1
             else 1000000000000000000),
         (3, 1)] :=
  do_match_degenerate sample_env (sample_table ["abc", "ab", "abcd"] [] 3)
    "match" "hamming" "1" "2" [] (by decide) (by decide) (by decide) (by decide)
    0 "abc" (by decide) (Or.inr (by decide))

/-! ## Theorems: pairwise mode, usage errors and case folding -/

/-- C6: on a table with exactly 3 variables and with a catalog method name,
`do_pairwise` returns 0 and its trace is one `SF_vstore` per row, in row order:
row `k + 1` gets `compute_score (f s1) (f s2) method pw` into variable 3, where
`s1`, `s2` are the strings of that row in variables 1 and 2 and `f` is
`to_lower` when `nocase` is among the options and the identity otherwise.
Hence each observation receives exactly that one value, and the store of a row
is the same in any other table that has the same two strings in that row. -/
theorem do_pairwise_rows (env : Env) (ds : Dataset) (mode name : String)
    (opts : List String) (hname : parse_method name ≠ M_INVALID)
    (hv : ds.nvar = 3) :
    do_pairwise env ds (mode :: name :: opts) =
      ⟨0, (List.range ds.nobs).map (fun (k : Nat) =>
        Effect.vstore 3 ((k : Int) + 1)
          (compute_score env
            (if "nocase" ∈ opts then to_lower (ds.sdata 1 ((k : Int) + 1))
             else ds.sdata 1 ((k : Int) + 1))
            (if "nocase" ∈ opts then to_lower (ds.sdata 2 ((k : Int) + 1))
             else ds.sdata 2 ((k : Int) + 1))
            (parse_method name) (parse_flags env opts).2))⟩ ∧
    (do_pairwise env ds (mode :: name :: opts)).trace.length = ds.nobs ∧
    (∀ i : Nat, i < ds.nobs →
      stores_at (do_pairwise env ds (mode :: name :: opts)).trace ((i : Int) + 1) =
        [(3, compute_score env
            (if "nocase" ∈ opts then to_lower (ds.sdata 1 ((i : Int) + 1))
             else ds.sdata 1 ((i : Int) + 1))
            (if "nocase" ∈ opts then to_lower (ds.sdata 2 ((i : Int) + 1))
             else ds.sdata 2 ((i : Int) + 1))
            (parse_method name) (parse_flags env opts).2)]) ∧
    (∀ (ds2 : Dataset) (i : Nat), ds2.nvar = 3 → i < ds.nobs → i < ds2.nobs →
      ds.sdata 1 ((i : Int) + 1) = ds2.sdata 1 ((i : Int) + 1) →
      ds.sdata 2 ((i : Int) + 1) = ds2.sdata 2 ((i : Int) + 1) →
      (do_pairwise env ds (mode :: name :: opts)).trace[i]? =
        (do_pairwise env ds2 (mode :: name :: opts)).trace[i]?) := by
  have hrun : ∀ d : Dataset, d.nvar = 3 →
      do_pairwise env d (mode :: name :: opts) =
      ⟨0, (List.range d.nobs).map (fun (k : Nat) =>
        Effect.vstore 3 ((k : Int) + 1)
          (compute_score env
            (if "nocase" ∈ opts then to_lower (d.sdata 1 ((k : Int) + 1))
             else d.sdata 1 ((k : Int) + 1))
            (if "nocase" ∈ opts then to_lower (d.sdata 2 ((k : Int) + 1))
             else d.sdata 2 ((k : Int) + 1))
            (parse_method name) (parse_flags env opts).2))⟩ := by
    intro d hd
    by_cases hnc : "nocase" ∈ opts <;>
      simp [do_pairwise, hname, hd, pairwise_row, read_string, parse_flags_nocase, hnc]
  refine ⟨hrun ds hv, ?_, ?_, ?_⟩
  · rw [hrun ds hv]
    simp
  · intro i hi
    rw [hrun ds hv]
    exact stores_at_rows (fun k => compute_score env
            (if "nocase" ∈ opts then to_lower (ds.sdata 1 ((k : Int) + 1))
             else ds.sdata 1 ((k : Int) + 1))
            (if "nocase" ∈ opts then to_lower (ds.sdata 2 ((k : Int) + 1))
             else ds.sdata 2 ((k : Int) + 1))
            (parse_method name) (parse_flags env opts).2) ds.nobs i hi
  · intro ds2 i hv2 hi hi2 h1 h2
    rw [hrun ds hv, hrun ds2 hv2]
    simp [List.getElem?_range hi, List.getElem?_range hi2, hi, hi2, h1, h2]

/-- A concrete instance: Hamming with `nocase` on three rows, the second of
which has strings of unequal length. -/
theorem do_pairwise_rows_witness :
    do_pairwise sample_env (sample_table ["ABC", "xyz", "abd"] ["abc", "xy", "abc"] 3)
        ["pairwise", "hamming", "nocase"] =
      ⟨0, [Effect.vstore 3 1 0, Effect.vstore 3 2 sample_env.SV_missval,
           Effect.vstore 3 3 1]⟩ :=
  ((do_pairwise_rows sample_env
    (sample_table ["ABC", "xyz", "abd"] ["abc", "xy", "abc"] 3)
    "pairwise" "hamming" ["nocase"] (by decide) (by decide)).1).trans (by decide)

/-- C9: case folding. With `nocase` among the options, `do_pairwise` and
`do_match` produce exactly what they produce, without any `nocase` option, on
the table in which every string has been replaced by `to_lower` of itself.
`to_lower` maps `tolower` over the characters, so it keeps the length (in
characters and in bytes); `tolower` sends each of `A`..`Z` to the letter 32
codes above, within `a`..`z`, and leaves every other character unchanged;
`to_lower` is idempotent; `to_lower "ABC" = "abc"`; and with `nocase` the row
`("ABC", "abc")` gets the same score as the row `("abc", "abc")`, for every
library and every method. -/
theorem nocase_is_lowering :
    (∀ (env : Env) (ds : Dataset) (mode name : String) (opts : List String),
      "nocase" ∈ opts →
      do_pairwise env ds (mode :: name :: opts) =
        do_pairwise env (lower_table ds)
          (mode :: name :: opts.filter (fun a => decide (a ≠ "nocase")))) ∧
    (∀ (env : Env) (ds : Dataset) (mode name a2 a3 : String) (opts : List String),
      "nocase" ∈ opts →
      do_match env ds (mode :: name :: a2 :: a3 :: opts) =
        do_match env (lower_table ds)
          (mode :: name :: a2 :: a3 :: opts.filter (fun a => decide (a ≠ "nocase")))) ∧
    (∀ s : String, (to_lower s).data = s.data.map tolower) ∧
    (∀ s : String, (to_lower s).length = s.length) ∧
    (∀ s : String, (to_lower s).utf8ByteSize = s.utf8ByteSize) ∧
    (∀ c : Char, 'A' ≤ c ∧ c ≤ 'Z' →
      (tolower c).toNat = c.toNat + 32 ∧ 'a' ≤ tolower c ∧ tolower c ≤ 'z') ∧
    (∀ c : Char, ¬ ('A' ≤ c ∧ c ≤ 'Z') → tolower c = c) ∧
    (∀ s : String, to_lower (to_lower s) = to_lower s) ∧
    to_lower "ABC" = "abc" ∧
    (∀ (env : Env) (method : Method) (pw : ℚ),
      pairwise_row env (sample_table ["ABC"] ["abc"] 3) method true pw 1 =
        pairwise_row env (sample_table ["abc"] ["abc"] 3) method true pw 1) ∧
    (∀ (env : Env) (name : String),
      do_pairwise env (sample_table ["ABC"] ["abc"] 3) ["pairwise", name, "nocase"] =
        do_pairwise env (sample_table ["abc"] ["abc"] 3) ["pairwise", name, "nocase"]) := by
  have hABC : to_lower "ABC" = "abc" := by decide
  have habc : to_lower "abc" = "abc" := by decide
  have hrow : ∀ (env : Env) (method : Method) (pw : ℚ),
      pairwise_row env (sample_table ["ABC"] ["abc"] 3) method true pw 1 =
        pairwise_row env (sample_table ["abc"] ["abc"] 3) method true pw 1 := by
    intro env method pw
    simp [pairwise_row, read_string, sample_table, hABC, habc]
  refine ⟨?_, ?_, ?_, ?_, to_lower_utf8ByteSize, ?_, tolower_other, to_lower_idem,
    hABC, hrow, ?_⟩
  · intro env ds mode name opts hnc
    have hflag : (parse_flags env opts).1 = true := by
      rw [parse_flags_nocase]
      simpa using hnc
    have hrowl : ∀ (method : Method) (pw : ℚ) (obs : Int),
        pairwise_row env ds method true pw obs =
          pairwise_row env (lower_table ds) method false pw obs := by
      intro method pw obs
      simp [pairwise_row, read_string, lower_table]
    have hnv : (lower_table ds).nvar = ds.nvar := rfl
    have hno : (lower_table ds).nobs = ds.nobs := rfl
    simp only [do_pairwise, parse_flags_filter, hflag, hrowl, hnv, hno]
  · intro env ds mode name a2 a3 opts hnc
    have hflag : (parse_flags env opts).1 = true := by
      rw [parse_flags_nocase]
      simpa using hnc
    have hnobs : (lower_table ds).nobs = ds.nobs := rfl
    simp only [do_match, parse_flags_filter, hflag, hnobs, read_block_lower_table]
  · intro s
    rfl
  · intro s
    cases s with
    | mk cs => simp [to_lower]
  · intro c hc
    exact ⟨(tolower_upper c hc).1, (tolower_upper c hc).2.1, (tolower_upper c hc).2.2.1⟩
  · intro env name
    by_cases hinv : parse_method name = M_INVALID
    · simp [do_pairwise, hinv]
    · have h1 := hrow env (parse_method name)
      simp [do_pairwise, hinv, sample_table, parse_flags, flag_step, List.range_succ]
      simpa using h1 _

/-! ## Theorems: the written index and the initial value of `best` -/

theorem scan_refs_append (env : Env) (method : Method) (pw : ℚ) (hb : Bool)
    (m : String) (a b : List String) :
    ∀ (j : Nat) (st : ℚ × Nat),
      scan_refs env method pw hb m (a ++ b) j st =
        scan_refs env method pw hb m b (j + a.length)
          (scan_refs env method pw hb m a j st) := by
  induction a with
  | nil =>
    intro j st
    simp [scan_refs]
  | cons r rest ih =>
    intro j st
    have hcons : (r :: rest) ++ b = r :: (rest ++ b) := rfl
    rw [hcons]
    simp only [scan_refs, List.length_cons]
    rw [ih]
    congr 1
    omega

/-- The index left by the inner loop started at index 0 with `best_j = 0` is
0 or the index of a reference. -/
theorem best_match_index_lt (env : Env) (method : Method) (pw : ℚ) (hb : Bool)
    (ref : List String) (m : String) (hne : ref ≠ []) :
    (best_match env method pw hb ref m).2 < ref.length := by
  unfold best_match
  rcases scan_refs_spec env method pw hb m ref 0
      (if hb = true then -1 else 1000000000000000000, 0) with
    ⟨hres, _⟩ | ⟨k, r, hk, hres, _⟩
  · rw [hres]
    exact List.length_pos.mpr hne
  · rw [hres]
    have hklt : k < ref.length := (List.getElem?_eq_some.mp hk).1
    simpa using hklt

/-- C16: in a successful `do_match` call the stores of a master record are a
best score and an index `k` with `1 <= k`; when `n_ref >= 1` also
`k <= n_ref`, whatever the scores are and whichever of them are missing; and
when `n_ref = 0` the index is 1 while the reference list is empty, so that 1
is the position of no reference record. -/
theorem do_match_index_range (env : Env) (ds : Dataset)
    (mode name a2 a3 : String) (opts : List String)
    (hname : parse_method name ≠ M_INVALID)
    (h2 : 0 ≤ env.atoi a2) (h3 : 0 ≤ env.atoi a3)
    (hobs : (ds.nobs : Int) = env.atoi a2 + env.atoi a3)
    (i : Nat) (m : String) (hm : (master_of env ds a2 opts)[i]? = some m) :
    ∃ (tr : List Effect) (best : ℚ) (k : Nat),
      do_match env ds (mode :: name :: a2 :: a3 :: opts) = Except.ok ⟨0, tr⟩ ∧
      stores_at tr ((i : Int) + 1) = [(2, best), (3, (k : ℚ))] ∧
      1 ≤ k ∧
      (1 ≤ env.atoi a3 → (k : Int) ≤ env.atoi a3) ∧
      (env.atoi a3 = 0 → k = 1 ∧ ref_of env ds a2 a3 opts = [] ∧
        ∀ j : Nat, (ref_of env ds a2 a3 opts)[j]? = none) := by
  obtain ⟨tr, hrun, hst⟩ := do_match_stores env ds mode name a2 a3 opts hname h2 h3 hobs i m hm
  have hlen : (ref_of env ds a2 a3 opts).length = (env.atoi a3).toNat := by
    simp [ref_of, read_block_length]
  refine ⟨tr, _, _, hrun, hst, by omega, ?_, ?_⟩
  · intro hpos
    have hne : ref_of env ds a2 a3 opts ≠ [] := by
      intro hnil
      rw [hnil] at hlen
      simp at hlen
      omega
    have hlt := best_match_index_lt env (parse_method name) (parse_flags env opts).2
      (is_similarity_method (parse_method name)) (ref_of env ds a2 a3 opts) m hne
    omega
  · intro hzero
    have hnil : ref_of env ds a2 a3 opts = [] := by
      apply List.length_eq_zero.mp
      rw [hlen, hzero]
      rfl
    refine ⟨?_, hnil, ?_⟩
    · rw [hnil]
      simp [best_match, scan_refs]
    · intro j
      rw [hnil]
      simp

/-- A concrete instance: Hamming match of the master `abc` against `ab` and
`abcd`, where no comparison succeeds and the index written is still 1. -/
theorem do_match_index_range_witness :
    ∃ (tr : List Effect) (best : ℚ) (k : Nat),
      do_match sample_env (sample_table ["abc", "ab", "abcd"] [] 3)
        ["match", "hamming", "1", "2"] = Except.ok ⟨0, tr⟩ ∧
      stores_at tr ((0 : Nat) + 1) = [(2, best), (3, (k : ℚ))] ∧
      1 ≤ k ∧
      (1 ≤ sample_env.atoi "2" → (k : Int) ≤ sample_env.atoi "2") ∧
      (sample_env.atoi "2" = 0 → k = 1 ∧
        ref_of sample_env (sample_table ["abc", "ab", "abcd"] [] 3) "1" "2" [] = [] ∧
        ∀ j : Nat,
          (ref_of sample_env (sample_table ["abc", "ab", "abcd"] [] 3) "1" "2" [])[j]?
            = none) :=
  do_match_index_range sample_env (sample_table ["abc", "ab", "abcd"] [] 3)
    "match" "hamming" "1" "2" [] (by decide) (by decide) (by decide) (by decide)
    0 "abc" (by decide)

/-- The claim of C12 fails for a score function that leaves the expected range.
With a Hamming count of `2e18`, the master `ab` has a missing comparison
(against `a`) and a non-missing one (against `cd`, score `2e18`); the
non-missing score does not replace the initial `1e18`, and `do_match` writes
the best score `1e18`, which is the score of no reference, with the index 1,
which is the index of the reference whose comparison is missing. The same
happens for a similarity metric whose scores are `-5`: the value written is
`-1`. -/
theorem sentinel_not_infinite_counterexample :
    (∃ tr : List Effect,
      do_match far_env (sample_table ["ab", "a", "cd"] [] 3)
        ["match", "hamming", "1", "2"] = Except.ok ⟨0, tr⟩ ∧
      stores_at tr 1 = [(2, 1000000000000000000), (3, 1)]) ∧
    ref_of far_env (sample_table ["ab", "a", "cd"] [] 3) "1" "2" [] = ["a", "cd"] ∧
    far_env.SF_is_missing (pair_score far_env "hamming" [] "ab" "a") = true ∧
    far_env.SF_is_missing (pair_score far_env "hamming" [] "ab" "cd") = false ∧
    pair_score far_env "hamming" [] "ab" "cd" = 2000000000000000000 ∧
    (∀ r ∈ ref_of far_env (sample_table ["ab", "a", "cd"] [] 3) "1" "2" [],
      pair_score far_env "hamming" [] "ab" r ≠ 1000000000000000000) ∧
    (∃ tr : List Effect,
      do_match far_env (sample_table ["ab", "cd"] [] 3)
        ["match", "ratio", "1", "1"] = Except.ok ⟨0, tr⟩ ∧
      stores_at tr 1 = [(2, -1), (3, 1)]) ∧
    far_env.SF_is_missing (pair_score far_env "ratio" [] "ab" "cd") = false ∧
    pair_score far_env "ratio" [] "ab" "cd" = -5 := by
  refine ⟨⟨_, do_match_ok far_env (sample_table ["ab", "a", "cd"] [] 3)
      "match" "hamming" "1" "2" [] (by decide) (by decide) (by decide) (by decide),
      by decide⟩, by decide, by decide, by decide, by decide, by decide,
    ⟨_, do_match_ok far_env (sample_table ["ab", "cd"] [] 3)
      "match" "ratio" "1" "1" [] (by decide) (by decide) (by decide) (by decide),
      by decide⟩, by decide, by decide⟩

/-- C12 (amended): in a successful `do_match` call, for a master record with
at least one non-missing comparison and all of whose non-missing scores beat
the initial value of `best` (they are above `-1.0` for a similarity metric,
below `1e18` for a raw-distance metric), the first non-missing score replaces
the initial value: after the references up to and including the first
non-missing one, the state of the loop is that score and its index. Hence the
stores of the record are the score of some reference `k - 1`, which is not
missing, and `k`. -/
theorem do_match_initial_replaced (env : Env) (ds : Dataset)
    (mode name a2 a3 : String) (opts : List String)
    (hname : parse_method name ≠ M_INVALID)
    (h2 : 0 ≤ env.atoi a2) (h3 : 0 ≤ env.atoi a3)
    (hobs : (ds.nobs : Int) = env.atoi a2 + env.atoi a3)
    (i : Nat) (m : String) (hm : (master_of env ds a2 opts)[i]? = some m)
    (hsome : ∃ r ∈ ref_of env ds a2 a3 opts,
      env.SF_is_missing (pair_score env name opts m r) = false)
    (hbeat : ∀ r ∈ ref_of env ds a2 a3 opts,
      env.SF_is_missing (pair_score env name opts m r) = false →
      if is_similarity_method (parse_method name) = true
      then -1 < pair_score env name opts m r
      else pair_score env name opts m r < 1000000000000000000) :
    (∀ (pre post : List String) (r1 : String),
      ref_of env ds a2 a3 opts = pre ++ r1 :: post →
      (∀ p ∈ pre, env.SF_is_missing (pair_score env name opts m p) = true) →
      env.SF_is_missing (pair_score env name opts m r1) = false →
      best_match env (parse_method name) (parse_flags env opts).2
        (is_similarity_method (parse_method name)) (pre ++ [r1]) m =
        (pair_score env name opts m r1, pre.length)) ∧
    ∃ (tr : List Effect) (k : Nat) (r : String),
      do_match env ds (mode :: name :: a2 :: a3 :: opts) = Except.ok ⟨0, tr⟩ ∧
      1 ≤ k ∧ (k : Int) ≤ env.atoi a3 ∧
      (ref_of env ds a2 a3 opts)[k - 1]? = some r ∧
      stores_at tr ((i : Int) + 1) = [(2, pair_score env name opts m r), (3, (k : ℚ))] ∧
      env.SF_is_missing (pair_score env name opts m r) = false := by
  have hbetter : ∀ r ∈ ref_of env ds a2 a3 opts,
      env.SF_is_missing (pair_score env name opts m r) = false →
      better (is_similarity_method (parse_method name))
        (compute_score env m r (parse_method name) (parse_flags env opts).2)
        (if is_similarity_method (parse_method name) = true then -1
          else 1000000000000000000) := by
    intro r hr hnm
    have h := hbeat r hr hnm
    by_cases hsim : is_similarity_method (parse_method name) = true
    · simp only [hsim, if_true] at h
      simp only [better, hsim, if_true]
      exact h
    · have hsim2 : is_similarity_method (parse_method name) = false := by
        simpa using hsim
      simp only [hsim2] at h
      simp only [better, hsim2]
      simpa [pair_score] using h
  constructor
  · intro pre post r1 hsplit hpre hnm1
    have hr1 : r1 ∈ ref_of env ds a2 a3 opts := by
      rw [hsplit]
      simp
    have hb1 := hbetter r1 hr1 hnm1
    have hnm1' : env.SF_is_missing
        (compute_score env m r1 (parse_method name) (parse_flags env opts).2) = false :=
      hnm1
    unfold best_match
    rw [scan_refs_append, scan_refs_all_missing env _ _ _ m pre hpre 0 _]
    simp only [scan_refs, Nat.zero_add]
    rcases scan_step_cases env (parse_method name) (parse_flags env opts).2
        (is_similarity_method (parse_method name)) m
        (if is_similarity_method (parse_method name) = true then -1
          else 1000000000000000000, 0) pre.length r1 with
      ⟨_, hmiss | hnb⟩ | ⟨hst, _, _⟩
    · rw [hmiss] at hnm1'
      exact absurd hnm1' (by simp)
    · exact absurd hb1 hnb
    · rw [hst]
      rfl
  · obtain ⟨tr, hrun, hst⟩ :=
      do_match_stores env ds mode name a2 a3 opts hname h2 h3 hobs i m hm
    obtain ⟨r0, hr0, hnm0⟩ := hsome
    rcases scan_refs_spec env (parse_method name) (parse_flags env opts).2
        (is_similarity_method (parse_method name)) m (ref_of env ds a2 a3 opts) 0
        (if is_similarity_method (parse_method name) = true then -1
          else 1000000000000000000, 0) with
      ⟨_, hall⟩ | ⟨k, r, hk, hres, hnm, _, _, _⟩
    · exfalso
      rcases hall r0 hr0 with hmiss | hnb
      · have hnm0' : env.SF_is_missing
            (compute_score env m r0 (parse_method name) (parse_flags env opts).2) = false :=
          hnm0
        rw [hmiss] at hnm0'
        exact absurd hnm0' (by simp)
      · exact hnb (hbetter r0 hr0 hnm0)
    · have hklt : k < (ref_of env ds a2 a3 opts).length :=
        (List.getElem?_eq_some.mp hk).1
      have hlen : (ref_of env ds a2 a3 opts).length = (env.atoi a3).toNat := by
        simp [ref_of, read_block_length]
      refine ⟨tr, k + 1, r, hrun, by omega, by omega, by simpa using hk, ?_, hnm⟩
      rw [hst]
      have hbm : best_match env (parse_method name) (parse_flags env opts).2
          (is_similarity_method (parse_method name)) (ref_of env ds a2 a3 opts) m =
          (compute_score env m r (parse_method name) (parse_flags env opts).2, 0 + k) := by
        unfold best_match
        exact hres
      rw [hbm]
      simp [pair_score]

/-- A concrete instance: Hamming match of the master `abc` against `ab`, `abd`
and `abc`; the first comparison is missing, the other two are 1 and 0. -/
theorem do_match_initial_replaced_witness :
    (∀ (pre post : List String) (r1 : String),
      ref_of sample_env (sample_table ["abc", "ab", "abd", "abc"] [] 3) "1" "3" [] =
        pre ++ r1 :: post →
      (∀ p ∈ pre,
        sample_env.SF_is_missing (pair_score sample_env "hamming" [] "abc" p) = true) →
      sample_env.SF_is_missing (pair_score sample_env "hamming" [] "abc" r1) = false →
      best_match sample_env (parse_method "hamming") (parse_flags sample_env []).2
        (is_similarity_method (parse_method "hamming")) (pre ++ [r1]) "abc" =
        (pair_score sample_env "hamming" [] "abc" r1, pre.length)) ∧
    ∃ (tr : List Effect) (k : Nat) (r : String),
      do_match sample_env (sample_table ["abc", "ab", "abd", "abc"] [] 3)
        ["match", "hamming", "1", "3"] = Except.ok ⟨0, tr⟩ ∧
      1 ≤ k ∧ (k : Int) ≤ sample_env.atoi "3" ∧
      (ref_of sample_env (sample_table ["abc", "ab", "abd", "abc"] [] 3)
        "1" "3" [])[k - 1]? = some r ∧
      stores_at tr ((0 : Nat) + 1) =
        [(2, pair_score sample_env "hamming" [] "abc" r), (3, (k : ℚ))] ∧
      sample_env.SF_is_missing (pair_score sample_env "hamming" [] "abc" r) = false :=
  do_match_initial_replaced sample_env
    (sample_table ["abc", "ab", "abd", "abc"] [] 3) "match" "hamming" "1" "3" []
    (by decide) (by decide) (by decide) (by decide) 0 "abc" (by decide)
    ⟨"abd", by decide, by decide⟩ (by decide)

/-! ## The trace of the outer loop in closed form -/

theorem displays_append (a b : List Effect) :
    displays (a ++ b) = displays a ++ displays b := by
  simp [displays, List.filterMap_append]

theorem column_append (a b : List Effect) (var : Int) :
    column (a ++ b) var = column a var ++ column b var := by
  simp [column, vstores_append, List.filterMap_append]

/-- The test of line 262 for a positive interval: `(i + 1) % r == 0` says that
`r` divides `i + 1`. -/
theorem tmod_succ_eq_zero_iff (i r : Nat) :
    Int.tmod ((i : Int) + 1) (r : Int) = 0 ↔ r ∣ i + 1 := by
  have h : (i : Int) + 1 = ((i + 1 : Nat) : Int) := by push_cast; rfl
  rw [h, ← Int.ofNat_tmod]
  constructor
  · intro hz
    have hz2 : (i + 1) % r = 0 := by exact_mod_cast hz
    exact Nat.dvd_of_mod_eq_zero hz2
  · intro hd
    have hz2 : (i + 1) % r = 0 := Nat.mod_eq_zero_of_dvd hd
    exact_mod_cast hz2

/-- The effects of one master record, for a reporting interval `r`. -/
theorem record_effects_eq (n_master : Int) (r i : Nat) (res : ℚ × Nat) :
    record_effects n_master (r : Int) i res =
      [Effect.vstore 2 ((i : Int) + 1) res.1,
       Effect.vstore 3 ((i : Int) + 1) ((res.2 + 1 : Nat) : ℚ)] ++
      (if r ∣ i + 1 then [Effect.display (progress_msg ((i : Int) + 1) n_master)]
       else []) := by
  unfold record_effects
  by_cases hd : r ∣ i + 1
  · have ht : Int.tmod ((i : Int) + 1) (r : Int) = 0 := (tmod_succ_eq_zero_iff i r).mpr hd
    simp [hd, ht]
  · have ht : ¬ Int.tmod ((i : Int) + 1) (r : Int) = 0 :=
      fun h => hd ((tmod_succ_eq_zero_iff i r).mp h)
    simp [hd, ht]

/-- The outer loop is the concatenation, over the master strings with their
0-based positions, of the effects of each record. -/
theorem match_loop_eq_flatMap (env : Env) (method : Method) (pw : ℚ) (hb : Bool)
    (ref : List String) (n_master report_every : Int) (master : List String) :
    ∀ i0 : Nat,
      match_loop env method pw hb ref n_master report_every master i0 =
        (master.enumFrom i0).flatMap (fun p =>
          record_effects n_master report_every p.1
            (best_match env method pw hb ref p.2)) := by
  induction master with
  | nil =>
    intro i0
    simp [match_loop]
  | cons m rest ih =>
    intro i0
    simp only [match_loop, List.enumFrom_cons, List.flatMap_cons]
    rw [ih (i0 + 1)]

theorem match_loop_append (env : Env) (method : Method) (pw : ℚ) (hb : Bool)
    (ref : List String) (n_master report_every : Int) (a b : List String) :
    ∀ i0 : Nat,
      match_loop env method pw hb ref n_master report_every (a ++ b) i0 =
        match_loop env method pw hb ref n_master report_every a i0 ++
        match_loop env method pw hb ref n_master report_every b (i0 + a.length) := by
  induction a with
  | nil =>
    intro i0
    simp [match_loop]
  | cons m rest ih =>
    intro i0
    have hcons : (m :: rest) ++ b = m :: (rest ++ b) := rfl
    rw [hcons]
    simp only [match_loop, List.length_cons]
    rw [ih (i0 + 1), List.append_assoc]
    congr 3
    omega

/-- The stores of the outer loop do not depend on the reporting interval nor
on the total shown in the messages: they are the two stores of each record. -/
theorem vstores_match_loop (env : Env) (method : Method) (pw : ℚ) (hb : Bool)
    (ref : List String) (n_master report_every : Int) (master : List String) :
    ∀ i0 : Nat,
      vstores (match_loop env method pw hb ref n_master report_every master i0) =
        (master.enumFrom i0).flatMap (fun p =>
          [(2, (p.1 : Int) + 1, (best_match env method pw hb ref p.2).1),
           (3, (p.1 : Int) + 1, (((best_match env method pw hb ref p.2).2 + 1 : Nat) : ℚ))]) := by
  induction master with
  | nil =>
    intro i0
    simp [match_loop, vstores]
  | cons m rest ih =>
    intro i0
    simp only [match_loop, List.enumFrom_cons, List.flatMap_cons]
    rw [vstores_append, ih (i0 + 1)]
    congr 1
    unfold record_effects
    by_cases hrep : Int.tmod ((i0 : Int) + 1) report_every = 0 <;>
      simp [vstores, hrep]

/-- The messages of the outer loop started at record 0 with a positive
interval `r`: one for each multiple of `r` up to the number of records. -/
theorem displays_match_loop (env : Env) (method : Method) (pw : ℚ) (hb : Bool)
    (ref : List String) (n_master : Int) (r : Nat) (master : List String) :
    displays (match_loop env method pw hb ref n_master (r : Int) master 0) =
      (List.range (master.length / r)).map (fun (k : Nat) =>
        progress_msg ((((k + 1) * r : Nat) : Int)) n_master) := by
  induction master using List.reverseRecOn with
  | nil => simp [match_loop, displays]
  | append_singleton ms m ih =>
    rw [match_loop_append, displays_append, ih]
    simp only [match_loop, Nat.zero_add, List.append_nil, List.length_append,
      List.length_singleton]
    rw [record_effects_eq]
    by_cases hd : r ∣ ms.length + 1
    · rw [Nat.succ_div_of_dvd hd, List.range_succ, List.map_append]
      have hmul : (ms.length / r + 1) * r = ms.length + 1 := by
        rw [← Nat.succ_div_of_dvd hd]
        exact Nat.div_mul_cancel hd
      have hmulI : ((ms.length : Int) / (r : Int) + 1) * (r : Int) =
          (ms.length : Int) + 1 := by
        exact_mod_cast hmul
      simp [displays, hd, hmulI]
    · rw [Nat.succ_div_of_not_dvd hd]
      simp [displays, hd]

/-! ## The reporting interval -/

/-- Lines 242-243 on a non-negative count: `max(1, n / 10)`. -/
theorem report_interval_natCast (n : Nat) :
    report_interval (n : Int) = ((max 1 (n / 10) : Nat) : Int) := by
  unfold report_interval
  have hdiv : Int.tdiv (n : Int) 10 = ((n / 10 : Nat) : Int) := by
    have h := Int.ofNat_tdiv n 10
    simpa using h.symm
  rw [hdiv]
  by_cases hlt : n / 10 < 1
  · have hlt2 : ((n / 10 : Nat) : Int) < 1 := by exact_mod_cast hlt
    rw [if_pos hlt2]
    have hmax : max 1 (n / 10) = 1 := by omega
    rw [hmax]
    rfl
  · have hlt2 : ¬ ((n / 10 : Nat) : Int) < 1 := by
      intro h
      exact hlt (by exact_mod_cast h)
    rw [if_neg hlt2]
    have hmax : max 1 (n / 10) = n / 10 := by omega
    rw [hmax]

/-- The interval is at least 1 for every count, negative ones included. -/
theorem report_interval_pos (n : Int) : 1 ≤ report_interval n := by
  unfold report_interval
  by_cases hlt : Int.tdiv n 10 < 1
  · rw [if_pos hlt]
  · rw [if_neg hlt]
    exact not_lt.mp hlt

/-- With interval 0 the test of line 262 never holds: no message at all. -/
theorem displays_match_loop_zero (env : Env) (method : Method) (pw : ℚ) (hb : Bool)
    (ref : List String) (n_master : Int) (master : List String) :
    ∀ i0 : Nat,
      displays (match_loop env method pw hb ref n_master 0 master i0) = [] := by
  induction master with
  | nil =>
    intro i0
    simp [match_loop, displays]
  | cons m rest ih =>
    intro i0
    simp only [match_loop]
    rw [displays_append, ih (i0 + 1)]
    have hne : ¬ ((i0 : Int) + 1 = 0) := by omega
    simp [record_effects, displays, hne]

/-- A successful `do_match` call with `n` master records runs the loop with
the interval `max(1, n / 10)` over the `n` strings it read. -/
theorem do_match_trace (env : Env) (ds : Dataset) (mode name a2 a3 : String)
    (opts : List String) (n : Nat) (hname : parse_method name ≠ M_INVALID)
    (hn : env.atoi a2 = (n : Int)) (h3 : 0 ≤ env.atoi a3)
    (hobs : (ds.nobs : Int) = env.atoi a2 + env.atoi a3) :
    do_match env ds (mode :: name :: a2 :: a3 :: opts) =
      Except.ok ⟨0, match_loop env (parse_method name) (parse_flags env opts).2
        (is_similarity_method (parse_method name)) (ref_of env ds a2 a3 opts)
        (n : Int) ((max 1 (n / 10) : Nat) : Int) (master_of env ds a2 opts) 0⟩ ∧
    (master_of env ds a2 opts).length = n := by
  have h2 : 0 ≤ env.atoi a2 := by omega
  constructor
  · rw [do_match_ok env ds mode name a2 a3 opts hname h2 h3 hobs, hn,
      report_interval_natCast]
    simp [master_of, ref_of, hn]
  · simp [master_of, read_block_length, hn]

/-! ## Match calls on a table built from two lists -/

theorem read_block_match_table (master ref : List String) (nocase : Bool)
    (first count : Nat) (h : first + count ≤ (master ++ ref).length) :
    read_block (match_table master ref) nocase (first : Int) (count : Int) =
      (((master ++ ref).drop first).take count).map
        (fun s => if nocase then to_lower s else s) := by
  apply List.ext_getElem?
  intro k
  by_cases hk : k < count
  · have hk2 : (k : Int) < (count : Int) := by exact_mod_cast hk
    rw [read_block_getElem? _ _ _ _ k hk2]
    have hidx : ((first : Int) + (k : Int) + 1).toNat - 1 = first + k := by omega
    have hlt : first + k < (master ++ ref).length := by omega
    have hsd : (match_table master ref).sdata 1 ((first : Int) + (k : Int) + 1) =
        (master ++ ref).getD (first + k) "" := by
      simp [match_table, hidx]
    rw [hsd]
    generalize master ++ ref = l at hlt ⊢
    simp [List.getElem?_take, hk, List.getElem?_drop, hlt]
  · have hlen : (read_block (match_table master ref) nocase (first : Int) (count : Int)).length
        = count := by simp [read_block_length]
    rw [List.getElem?_eq_none (by omega), List.getElem?_eq_none]
    simp
    omega

/-- The master strings read from `match_table master ref` are `master`, each
string lowered when `nocase` is set. -/
theorem master_of_match_table (env : Env) (master ref : List String) (a2 : String)
    (opts : List String) (h2 : env.atoi a2 = (master.length : Int)) :
    master_of env (match_table master ref) a2 opts =
      master.map (fun s => if (parse_flags env opts).1 then to_lower s else s) := by
  unfold master_of
  rw [h2]
  have h := read_block_match_table master ref (parse_flags env opts).1 0 master.length
    (by simp)
  simpa using h

/-- The reference strings read from `match_table master ref` are `ref`, each
string lowered when `nocase` is set. -/
theorem ref_of_match_table (env : Env) (master ref : List String) (a2 a3 : String)
    (opts : List String) (h2 : env.atoi a2 = (master.length : Int))
    (h3 : env.atoi a3 = (ref.length : Int)) :
    ref_of env (match_table master ref) a2 a3 opts =
      ref.map (fun s => if (parse_flags env opts).1 then to_lower s else s) := by
  unfold ref_of
  rw [h2, h3]
  have h := read_block_match_table master ref (parse_flags env opts).1 master.length
    ref.length (by simp)
  simpa using h

/-- The best scores go to variable 2, one per master string, in order. -/
theorem column_two_match_loop (env : Env) (method : Method) (pw : ℚ) (hb : Bool)
    (ref : List String) (n_master report_every : Int) (master : List String) :
    ∀ i0 : Nat,
      column (match_loop env method pw hb ref n_master report_every master i0) 2 =
        master.map (fun m => (best_match env method pw hb ref m).1) := by
  induction master with
  | nil =>
    intro i0
    simp [match_loop, column, vstores]
  | cons m rest ih =>
    intro i0
    simp only [match_loop, List.map_cons]
    rw [column_append, ih (i0 + 1)]
    unfold record_effects
    by_cases hrep : Int.tmod ((i0 : Int) + 1) report_every = 0 <;>
      simp [column, vstores, hrep]

/-- The 1-based best indices go to variable 3, one per master string. -/
theorem column_three_match_loop (env : Env) (method : Method) (pw : ℚ) (hb : Bool)
    (ref : List String) (n_master report_every : Int) (master : List String) :
    ∀ i0 : Nat,
      column (match_loop env method pw hb ref n_master report_every master i0) 3 =
        master.map (fun m => (((best_match env method pw hb ref m).2 + 1 : Nat) : ℚ)) := by
  induction master with
  | nil =>
    intro i0
    simp [match_loop, column, vstores]
  | cons m rest ih =>
    intro i0
    simp only [match_loop, List.map_cons]
    rw [column_append, ih (i0 + 1)]
    unfold record_effects
    by_cases hrep : Int.tmod ((i0 : Int) + 1) report_every = 0 <;>
      simp [column, vstores, hrep]

/-- A match call on `match_table master ref` with the two lengths as counts
succeeds, and its columns are the best scores and best indices of the master
strings against the reference strings, in order. -/
theorem do_match_on_table (env : Env) (master ref : List String)
    (mode name a2 a3 : String) (opts : List String)
    (hname : parse_method name ≠ M_INVALID)
    (h2 : env.atoi a2 = (master.length : Int))
    (h3 : env.atoi a3 = (ref.length : Int)) :
    ∃ tr : List Effect,
      do_match env (match_table master ref) (mode :: name :: a2 :: a3 :: opts) =
        Except.ok ⟨0, tr⟩ ∧
      column tr 2 = master.map (fun m =>
        (best_match env (parse_method name) (parse_flags env opts).2
          (is_similarity_method (parse_method name))
          (ref.map (fun s => if (parse_flags env opts).1 then to_lower s else s))
          (if (parse_flags env opts).1 then to_lower m else m)).1) ∧
      column tr 3 = master.map (fun m =>
        (((best_match env (parse_method name) (parse_flags env opts).2
          (is_similarity_method (parse_method name))
          (ref.map (fun s => if (parse_flags env opts).1 then to_lower s else s))
          (if (parse_flags env opts).1 then to_lower m else m)).2 + 1 : Nat) : ℚ)) := by
  have hobs : ((match_table master ref).nobs : Int) = env.atoi a2 + env.atoi a3 := by
    rw [h2, h3]
    simp [match_table]
  have hrun := do_match_ok env (match_table master ref) mode name a2 a3 opts hname
    (by omega) (by omega) hobs
  have hm := master_of_match_table env master ref a2 opts h2
  have hr := ref_of_match_table env master ref a2 a3 opts h2 h3
  unfold master_of at hm
  unfold ref_of at hr
  rw [hm, hr] at hrun
  refine ⟨_, hrun, ?_, ?_⟩
  · rw [column_two_match_loop, List.map_map]
    rfl
  · rw [column_three_match_loop, List.map_map]
    rfl

/-- The result pairs of a match call on `match_table master ref`: one pair per
master string, computed from that string and the references alone. -/
theorem result_pairs_on_table (env : Env) (master ref : List String)
    (mode name a2 a3 : String) (opts : List String)
    (hname : parse_method name ≠ M_INVALID)
    (h2 : env.atoi a2 = (master.length : Int))
    (h3 : env.atoi a3 = (ref.length : Int)) :
    ∃ tr : List Effect,
      do_match env (match_table master ref) (mode :: name :: a2 :: a3 :: opts) =
        Except.ok ⟨0, tr⟩ ∧
      result_pairs tr = master.map (fun m =>
        ((best_match env (parse_method name) (parse_flags env opts).2
          (is_similarity_method (parse_method name))
          (ref.map (fun s => if (parse_flags env opts).1 then to_lower s else s))
          (if (parse_flags env opts).1 then to_lower m else m)).1,
         (((best_match env (parse_method name) (parse_flags env opts).2
          (is_similarity_method (parse_method name))
          (ref.map (fun s => if (parse_flags env opts).1 then to_lower s else s))
          (if (parse_flags env opts).1 then to_lower m else m)).2 + 1 : Nat) : ℚ))) := by
  obtain ⟨tr, hrun, hc2, hc3⟩ := do_match_on_table env master ref mode name a2 a3 opts
    hname h2 h3
  refine ⟨tr, hrun, ?_⟩
  unfold result_pairs
  rw [hc2, hc3, List.zip_map']

/-! ## Theorems: independence of the master records and of the reference order -/

/-- C14: the master records are independent in `do_match`. For every library,
reference list, method and options, the list of (best score, best index) pairs
written for the master list `m1 ++ m2` is the list written for `m1` followed by
the list written for `m2`; and the pair of record `i` is the single pair
written by the call whose master list is the one string of record `i`. -/
theorem do_match_records_independent (env : Env) (m1 m2 ref : List String)
    (mode name a12 a1 a2 aone a3 : String) (opts : List String)
    (hname : parse_method name ≠ M_INVALID)
    (h12 : env.atoi a12 = ((m1 ++ m2).length : Int))
    (h1 : env.atoi a1 = (m1.length : Int))
    (h2 : env.atoi a2 = (m2.length : Int))
    (hone : env.atoi aone = 1)
    (h3 : env.atoi a3 = (ref.length : Int)) :
    ∃ t12 t1 t2 : List Effect,
      do_match env (match_table (m1 ++ m2) ref) (mode :: name :: a12 :: a3 :: opts) =
        Except.ok ⟨0, t12⟩ ∧
      do_match env (match_table m1 ref) (mode :: name :: a1 :: a3 :: opts) =
        Except.ok ⟨0, t1⟩ ∧
      do_match env (match_table m2 ref) (mode :: name :: a2 :: a3 :: opts) =
        Except.ok ⟨0, t2⟩ ∧
      result_pairs t12 = result_pairs t1 ++ result_pairs t2 ∧
      (result_pairs t12).length = m1.length + m2.length ∧
      (∀ (i : Nat) (m : String), (m1 ++ m2)[i]? = some m →
        ∃ (t : List Effect) (pair : ℚ × ℚ),
          do_match env (match_table [m] ref) (mode :: name :: aone :: a3 :: opts) =
            Except.ok ⟨0, t⟩ ∧
          result_pairs t = [pair] ∧
          (result_pairs t12)[i]? = some pair) := by
  obtain ⟨t12, hrun12, hp12⟩ := result_pairs_on_table env (m1 ++ m2) ref mode name a12 a3
    opts hname h12 h3
  obtain ⟨t1, hrun1, hp1⟩ := result_pairs_on_table env m1 ref mode name a1 a3 opts
    hname h1 h3
  obtain ⟨t2, hrun2, hp2⟩ := result_pairs_on_table env m2 ref mode name a2 a3 opts
    hname h2 h3
  refine ⟨t12, t1, t2, hrun12, hrun1, hrun2, ?_, ?_, ?_⟩
  · rw [hp12, hp1, hp2, List.map_append]
  · rw [hp12]
    simp
  · intro i m hm
    obtain ⟨t, hrun, hp⟩ := result_pairs_on_table env [m] ref mode name aone a3 opts
      hname (by simpa using hone) h3
    refine ⟨t, _, hrun, by rw [hp]; rfl, ?_⟩
    rw [hp12, List.getElem?_map, hm]
    rfl

/-- A concrete instance: the masters `abc`, `xyz` followed by `abd`, matched
under Hamming against the references `abd`, `ab`, `abc`. -/
theorem do_match_records_independent_witness :
    ∃ t12 t1 t2 : List Effect,
      do_match sample_env (match_table (["abc", "xyz"] ++ ["abd"]) ["abd", "ab", "abc"])
        ["match", "hamming", "3", "3"] = Except.ok ⟨0, t12⟩ ∧
      do_match sample_env (match_table ["abc", "xyz"] ["abd", "ab", "abc"])
        ["match", "hamming", "2", "3"] = Except.ok ⟨0, t1⟩ ∧
      do_match sample_env (match_table ["abd"] ["abd", "ab", "abc"])
        ["match", "hamming", "1", "3"] = Except.ok ⟨0, t2⟩ ∧
      result_pairs t12 = result_pairs t1 ++ result_pairs t2 ∧
      (result_pairs t12).length = ["abc", "xyz"].length + ["abd"].length ∧
      (∀ (i : Nat) (m : String), (["abc", "xyz"] ++ ["abd"])[i]? = some m →
        ∃ (t : List Effect) (pair : ℚ × ℚ),
          do_match sample_env (match_table [m] ["abd", "ab", "abc"])
            ["match", "hamming", "1", "3"] = Except.ok ⟨0, t⟩ ∧
          result_pairs t = [pair] ∧
          (result_pairs t12)[i]? = some pair) :=
  do_match_records_independent sample_env ["abc", "xyz"] ["abd"] ["abd", "ab", "abc"]
    "match" "hamming" "3" "2" "1" "1" "3" [] (by decide) (by decide) (by decide)
    (by decide) (by decide) (by decide)

/-- The best score after one pass of the inner loop depends on the best score
before it only, not on the index part of the state. -/
theorem scan_step_fst (env : Env) (method : Method) (pw : ℚ) (hb : Bool)
    (m : String) (st : ℚ × Nat) (j : Nat) (r : String) :
    (scan_step env method pw hb m st j r).1 =
      (scan_step env method pw hb m (st.1, 0) 0 r).1 := by
  unfold scan_step
  by_cases hmiss : env.SF_is_missing (compute_score env m r method pw) = true
  · simp [hmiss]
  · by_cases hbet : (if hb = true then compute_score env m r method pw > st.1
        else compute_score env m r method pw < st.1)
    · simp [hmiss, hbet]
    · simp [hmiss, hbet]

/-- The best score left by the inner loop is a left fold of the references
over the best score alone. -/
theorem scan_refs_fst (env : Env) (method : Method) (pw : ℚ) (hb : Bool)
    (m : String) (refs : List String) :
    ∀ (j : Nat) (st : ℚ × Nat),
      (scan_refs env method pw hb m refs j st).1 =
        refs.foldl (fun b r => (scan_step env method pw hb m (b, 0) 0 r).1) st.1 := by
  induction refs with
  | nil =>
    intro j st
    rfl
  | cons r rest ih =>
    intro j st
    simp only [scan_refs, List.foldl_cons]
    rw [ih, scan_step_fst]

/-- Two passes of the inner loop leave the same best score in either order. -/
theorem scan_step_fst_comm (env : Env) (method : Method) (pw : ℚ) (hb : Bool)
    (m : String) (x y : String) (z : ℚ) :
    (scan_step env method pw hb m
        ((scan_step env method pw hb m (z, 0) 0 x).1, 0) 0 y).1 =
      (scan_step env method pw hb m
        ((scan_step env method pw hb m (z, 0) 0 y).1, 0) 0 x).1 := by
  unfold scan_step
  by_cases hx : env.SF_is_missing (compute_score env m x method pw) = true <;>
  by_cases hy : env.SF_is_missing (compute_score env m y method pw) = true <;>
  cases hb <;>
  simp only [hx, hy, if_true, if_false, Bool.false_eq_true] <;>
  split_ifs <;>
  first
    | rfl
    | (simp only [gt_iff_lt, not_lt] at *
       linarith)

/-- The best score of a master string does not depend on the order of the
references. -/
theorem best_match_fst_perm (env : Env) (method : Method) (pw : ℚ) (hb : Bool)
    (ref ref2 : List String) (m : String) (hperm : List.Perm ref ref2) :
    (best_match env method pw hb ref m).1 = (best_match env method pw hb ref2 m).1 := by
  unfold best_match
  rw [scan_refs_fst, scan_refs_fst]
  exact List.Perm.foldl_eq' hperm
    (fun x _ y _ z => (scan_step_fst_comm env method pw hb m x y z)) _

/-- C15: the best score written by `do_match` does not depend on the order of
the reference list. For every library, method, options and master list, and
for every permutation `ref2` of the reference list `ref`, the two calls succeed
and store the same best scores into variable 2, record by record. -/
theorem do_match_best_order_free (env : Env) (master ref ref2 : List String)
    (mode name a2 a3 : String) (opts : List String)
    (hname : parse_method name ≠ M_INVALID)
    (h2 : env.atoi a2 = (master.length : Int))
    (h3 : env.atoi a3 = (ref.length : Int))
    (hperm : List.Perm ref ref2) :
    ∃ t t2 : List Effect,
      do_match env (match_table master ref) (mode :: name :: a2 :: a3 :: opts) =
        Except.ok ⟨0, t⟩ ∧
      do_match env (match_table master ref2) (mode :: name :: a2 :: a3 :: opts) =
        Except.ok ⟨0, t2⟩ ∧
      column t 2 = column t2 2 ∧
      (column t 2).length = master.length ∧
      (∀ i : Nat, i < master.length →
        ∃ (best : ℚ) (k k2 : ℚ),
          stores_at t ((i : Int) + 1) = [(2, best), (3, k)] ∧
          stores_at t2 ((i : Int) + 1) = [(2, best), (3, k2)]) := by
  have h3b : env.atoi a3 = (ref2.length : Int) := by
    rw [h3, hperm.length_eq]
  obtain ⟨t, hrun, hc2, _⟩ := do_match_on_table env master ref mode name a2 a3 opts
    hname h2 h3
  obtain ⟨t2, hrun2, hc2b, _⟩ := do_match_on_table env master ref2 mode name a2 a3 opts
    hname h2 h3b
  have hpm : List.Perm
      (ref.map (fun s => if (parse_flags env opts).1 then to_lower s else s))
      (ref2.map (fun s => if (parse_flags env opts).1 then to_lower s else s)) :=
    hperm.map _
  have hobs : ((match_table master ref).nobs : Int) = env.atoi a2 + env.atoi a3 := by
    rw [h2, h3]
    simp [match_table]
  have hobs2 : ((match_table master ref2).nobs : Int) = env.atoi a2 + env.atoi a3 := by
    rw [h2, h3b]
    simp [match_table]
  refine ⟨t, t2, hrun, hrun2, ?_, ?_, ?_⟩
  · rw [hc2, hc2b]
    apply List.map_congr_left
    intro m _
    exact best_match_fst_perm env _ _ _ _ _ _ hpm
  · rw [hc2]
    simp
  · intro i hi
    have hmi : (master_of env (match_table master ref) a2 opts)[i]? =
        some (if (parse_flags env opts).1 then to_lower master[i] else master[i]) := by
      rw [master_of_match_table env master ref a2 opts h2]
      simp [hi]
    have hmi2 : (master_of env (match_table master ref2) a2 opts)[i]? =
        some (if (parse_flags env opts).1 then to_lower master[i] else master[i]) := by
      rw [master_of_match_table env master ref2 a2 opts h2]
      simp [hi]
    obtain ⟨u, hu, hsu⟩ := do_match_stores env (match_table master ref) mode name a2 a3
      opts hname (by omega) (by omega) hobs i _ hmi
    obtain ⟨u2, hu2, hsu2⟩ := do_match_stores env (match_table master ref2) mode name a2 a3
      opts hname (by omega) (by omega) hobs2 i _ hmi2
    have htu : t = u := by
      have h := hrun.symm.trans hu
      injection h with h
      injection h
    have htu2 : t2 = u2 := by
      have h := hrun2.symm.trans hu2
      injection h with h
      injection h
    rw [htu, htu2, hsu, hsu2]
    rw [ref_of_match_table env master ref a2 a3 opts h2 h3,
      ref_of_match_table env master ref2 a2 a3 opts h2 h3b]
    have hbest := best_match_fst_perm env (parse_method name) (parse_flags env opts).2
      (is_similarity_method (parse_method name)) _ _
      (if (parse_flags env opts).1 then to_lower master[i] else master[i]) hpm
    exact ⟨_, _, _, rfl, by rw [hbest]⟩

/-- A concrete instance: the masters `abc`, `xyz` under Hamming against the
references `abd`, `ab`, `abc` and against the same references in the order
`abc`, `abd`, `ab`. -/
theorem do_match_best_order_free_witness :
    ∃ t t2 : List Effect,
      do_match sample_env (match_table ["abc", "xyz"] ["abd", "ab", "abc"])
        ["match", "hamming", "2", "3"] = Except.ok ⟨0, t⟩ ∧
      do_match sample_env (match_table ["abc", "xyz"] ["abc", "abd", "ab"])
        ["match", "hamming", "2", "3"] = Except.ok ⟨0, t2⟩ ∧
      column t 2 = column t2 2 ∧
      (column t 2).length = ["abc", "xyz"].length ∧
      (∀ i : Nat, i < ["abc", "xyz"].length →
        ∃ (best : ℚ) (k k2 : ℚ),
          stores_at t ((i : Int) + 1) = [(2, best), (3, k)] ∧
          stores_at t2 ((i : Int) + 1) = [(2, best), (3, k2)]) :=
  do_match_best_order_free sample_env ["abc", "xyz"] ["abd", "ab", "abc"]
    ["abc", "abd", "ab"] "match" "hamming" "2" "3" [] (by decide) (by decide)
    (by decide) (by decide)

/-! ## Rounding to a double -/

theorem round_even_cases (s : ℚ) :
    round_even s = ⌊s⌋ ∧ 2 * Int.fract s ≤ 1 ∨
    round_even s = ⌊s⌋ + 1 ∧ 1 ≤ 2 * Int.fract s := by
  unfold round_even
  by_cases h1 : 2 * Int.fract s < 1
  · left
    simp [h1, le_of_lt h1]
  · by_cases h2 : 1 < 2 * Int.fract s
    · right
      simp [h1, h2, le_of_lt h2]
    · have heq : 2 * Int.fract s = 1 := le_antisymm (not_lt.mp h2) (not_lt.mp h1)
      by_cases h3 : ⌊s⌋ % 2 = 0
      · left
        simp [h1, h2, h3, heq]
      · right
        simp [h1, h2, h3, heq]

theorem round_even_nonneg (s : ℚ) (hs : 0 ≤ s) : 0 ≤ round_even s := by
  have hf : 0 ≤ ⌊s⌋ := Int.floor_nonneg.mpr hs
  rcases round_even_cases s with ⟨h, _⟩ | ⟨h, _⟩ <;> omega

/-- Rounding does not pass an integer that bounds the argument. -/
theorem round_even_le (s : ℚ) (t : Int) (hst : s ≤ (t : ℚ)) : round_even s ≤ t := by
  rcases round_even_cases s with ⟨h, _⟩ | ⟨h, hfr⟩
  · rw [h]
    have hle : ((⌊s⌋ : Int) : ℚ) ≤ (t : ℚ) := le_trans (Int.floor_le s) hst
    exact_mod_cast hle
  · rw [h]
    have hlt : (⌊s⌋ : ℚ) < t := by
      have hfl : (⌊s⌋ : ℚ) = s - Int.fract s := by
        rw [Int.fract]
        ring
      rw [hfl]
      linarith
    have : ⌊s⌋ < t := by exact_mod_cast hlt
    omega

/-- An integer closer than one half to `s` is the rounding of `s`. -/
theorem round_even_near (s : ℚ) (m : Int) (h : |s - (m : ℚ)| < 1 / 2) :
    round_even s = m := by
  have h1 := (abs_lt.mp h).1
  have h2 := (abs_lt.mp h).2
  have hfl : (⌊s⌋ : ℚ) = s - Int.fract s := by
    rw [Int.fract]
    ring
  have hf0 : 0 ≤ Int.fract s := Int.fract_nonneg s
  have hf1 : Int.fract s < 1 := Int.fract_lt_one s
  rcases round_even_cases s with ⟨h3, hfr⟩ | ⟨h3, hfr⟩
  · rw [h3]
    have ha : ((⌊s⌋ : Int) : ℚ) < (m : ℚ) + 1 := by
      rw [hfl]
      linarith
    have hb : (m : ℚ) - 1 < ((⌊s⌋ : Int) : ℚ) := by
      rw [hfl]
      linarith
    have ha2 : ⌊s⌋ < m + 1 := by exact_mod_cast ha
    have hb2 : m - 1 < ⌊s⌋ := by exact_mod_cast hb
    omega
  · rw [h3]
    have ha : ((⌊s⌋ : Int) : ℚ) + 1 < (m : ℚ) + 1 := by
      rw [hfl]
      linarith
    have hb : (m : ℚ) - 1 < ((⌊s⌋ : Int) : ℚ) + 1 := by
      rw [hfl]
      linarith
    have ha2 : ⌊s⌋ + 1 < m + 1 := by exact_mod_cast ha
    have hb2 : m - 1 < ⌊s⌋ + 1 := by exact_mod_cast hb
    omega

theorem log_two_eq (q : ℚ) (k : Int) (h1 : (2 : ℚ) ^ k ≤ q)
    (h2 : q < (2 : ℚ) ^ (k + 1)) : Int.log 2 q = k := by
  have hpos : 0 < q := lt_of_lt_of_le (by positivity) h1
  have ha : k ≤ Int.log 2 q :=
    (Int.zpow_le_iff_le_log (by norm_num) hpos).mp (by exact_mod_cast h1)
  have hb : Int.log 2 q < k + 1 :=
    (Int.lt_zpow_iff_log_lt (by norm_num) hpos).mp (by exact_mod_cast h2)
  omega

/-- The rounding of `q`, from its binary exponent `k` and an integer mantissa
`m` closer than half a unit of the last place. -/
theorem to_double_eq (q : ℚ) (k m : Int) (h1 : (2 : ℚ) ^ k ≤ |q|)
    (h2 : |q| < (2 : ℚ) ^ (k + 1)) (hk : -1074 ≤ k - 52)
    (hm : |q / 2 ^ (k - 52) - (m : ℚ)| < 1 / 2) :
    to_double q = (m : ℚ) * 2 ^ (k - 52) := by
  have he : ulp_exp q = k - 52 := by
    unfold ulp_exp
    rw [log_two_eq |q| k h1 h2]
    omega
  unfold to_double
  rw [he, round_even_near _ m hm]

theorem ulp_exp_nonpos (q : ℚ) (h : |q| < (2 : ℚ) ^ (53 : Int)) : ulp_exp q ≤ 0 := by
  unfold ulp_exp
  by_cases hq : |q| = 0
  · rw [hq, Int.log_zero_right]
    omega
  · have hpos : 0 < |q| := lt_of_le_of_ne (abs_nonneg q) (Ne.symm hq)
    have hlog : Int.log 2 |q| < 53 :=
      (Int.lt_zpow_iff_log_lt (by norm_num) hpos).mp (by exact_mod_cast h)
    omega

/-- Rounding keeps a non-negative number below `2^53` between 0 and any
natural number that bounds it. -/
theorem to_double_range (q : ℚ) (N : Nat) (h0 : 0 ≤ q) (hN : q ≤ (N : ℚ))
    (hbig : q < (2 : ℚ) ^ (53 : Int)) :
    0 ≤ to_double q ∧ to_double q ≤ (N : ℚ) := by
  have he : ulp_exp q ≤ 0 := ulp_exp_nonpos q (by rw [abs_of_nonneg h0]; exact hbig)
  obtain ⟨n, hn⟩ : ∃ n : Nat, ulp_exp q = -(n : Int) := ⟨(-ulp_exp q).toNat, by omega⟩
  unfold to_double
  rw [hn]
  have hp : (0 : ℚ) < 2 ^ n := by positivity
  have hz : (2 : ℚ) ^ (-(n : Int)) = ((2 : ℚ) ^ n)⁻¹ := by
    rw [zpow_neg, zpow_natCast]
  rw [hz]
  have hs : q / ((2 : ℚ) ^ n)⁻¹ = q * 2 ^ n := by
    field_simp
  rw [hs]
  constructor
  · apply mul_nonneg
    · exact_mod_cast round_even_nonneg _ (mul_nonneg h0 (le_of_lt hp))
    · exact inv_nonneg.mpr (le_of_lt hp)
  · have hT : q * 2 ^ n ≤ (((N * 2 ^ n : Nat) : Int) : ℚ) := by
      push_cast
      exact mul_le_mul_of_nonneg_right hN (le_of_lt hp)
    have hr := round_even_le _ _ hT
    have hr2 : (round_even (q * 2 ^ n) : ℚ) ≤ (N : ℚ) * 2 ^ n := by
      have hr3 : (round_even (q * 2 ^ n) : ℚ) ≤ (((N * 2 ^ n : Nat) : Int) : ℚ) := by
        exact_mod_cast hr
      push_cast at hr3
      exact hr3
    calc (round_even (q * 2 ^ n) : ℚ) * ((2 : ℚ) ^ n)⁻¹
        ≤ ((N : ℚ) * 2 ^ n) * ((2 : ℚ) ^ n)⁻¹ :=
          mul_le_mul_of_nonneg_right hr2 (inv_nonneg.mpr (le_of_lt hp))
      _ = (N : ℚ) := by field_simp

/-- An integer below `2^53` in absolute value is a double: rounding keeps it. -/
theorem to_double_int (z : Int) (h : |(z : ℚ)| < (2 : ℚ) ^ (53 : Int)) :
    to_double (z : ℚ) = (z : ℚ) := by
  have he : ulp_exp (z : ℚ) ≤ 0 := ulp_exp_nonpos _ h
  obtain ⟨n, hn⟩ : ∃ n : Nat, ulp_exp (z : ℚ) = -(n : Int) :=
    ⟨(-ulp_exp (z : ℚ)).toNat, by omega⟩
  unfold to_double
  rw [hn]
  have hp : (0 : ℚ) < 2 ^ n := by positivity
  have hz : (2 : ℚ) ^ (-(n : Int)) = ((2 : ℚ) ^ n)⁻¹ := by
    rw [zpow_neg, zpow_natCast]
  rw [hz]
  have hs : (z : ℚ) / ((2 : ℚ) ^ n)⁻¹ = ((z * 2 ^ n : Int) : ℚ) := by
    push_cast
    field_simp
  rw [hs, round_even_near _ (z * 2 ^ n) (by simp)]
  push_cast
  field_simp

/-- The `double` nearest to `0.07`. -/
theorem to_double_seven_hundredths :
    to_double (7 / 100) = double_seven_hundredths := by
  have h := to_double_eq (7 / 100) (-4) 5044031582654956
    (by rw [abs_of_nonneg (by norm_num)]; norm_num)
    (by rw [abs_of_nonneg (by norm_num)]; norm_num) (by norm_num)
    (by norm_num [abs_lt])
  rw [h]
  norm_num [double_seven_hundredths]

/-- The `double` product of the double nearest to `0.07` and `100.0` is
`7 + 2^-50`. -/
theorem double_mul_seven_hundredths :
    double_mul double_seven_hundredths 100 = 7881299347898369 / 1125899906842624 := by
  unfold double_mul double_seven_hundredths
  have h := to_double_eq ((1261007895663739 : ℚ) / 18014398509481984 * 100) 2
    7881299347898369
    (by rw [abs_of_nonneg (by norm_num)]; norm_num)
    (by rw [abs_of_nonneg (by norm_num)]; norm_num) (by norm_num)
    (by norm_num [abs_lt])
  rw [h]
  norm_num

/-- Rounding moves a number by at most half a unit of the last place. -/
theorem to_double_error (q : ℚ) :
    |to_double q - q| ≤ 2 ^ ulp_exp q / 2 := by
  have hp : (0 : ℚ) < 2 ^ ulp_exp q := by positivity
  have hq : q = (q / 2 ^ ulp_exp q) * 2 ^ ulp_exp q := by
    field_simp
  have hfl : ((⌊q / 2 ^ ulp_exp q⌋ : Int) : ℚ) =
      q / 2 ^ ulp_exp q - Int.fract (q / 2 ^ ulp_exp q) := by
    rw [Int.fract]
    ring
  have hf0 : 0 ≤ Int.fract (q / 2 ^ ulp_exp q) := Int.fract_nonneg _
  have hf1 : Int.fract (q / 2 ^ ulp_exp q) < 1 := Int.fract_lt_one _
  have hdiff : to_double q - q =
      ((round_even (q / 2 ^ ulp_exp q) : ℚ) - q / 2 ^ ulp_exp q) * 2 ^ ulp_exp q := by
    unfold to_double
    rw [sub_mul, ← hq]
  have hhalf : |(round_even (q / 2 ^ ulp_exp q) : ℚ) - q / 2 ^ ulp_exp q| ≤ 1 / 2 := by
    rw [abs_le]
    rcases round_even_cases (q / 2 ^ ulp_exp q) with ⟨h, hfr⟩ | ⟨h, hfr⟩
    · rw [h, hfl]
      constructor <;> linarith
    · rw [h]
      push_cast
      rw [hfl]
      constructor <;> linarith
  rw [hdiff, abs_mul, abs_of_pos hp]
  calc |(round_even (q / 2 ^ ulp_exp q) : ℚ) - q / 2 ^ ulp_exp q| * 2 ^ ulp_exp q
      ≤ 1 / 2 * 2 ^ ulp_exp q := mul_le_mul_of_nonneg_right hhalf (le_of_lt hp)
    _ = 2 ^ ulp_exp q / 2 := by ring

/-! ## Theorems: scale of the scores -/

/-- The claim of C11 fails for the product: with a Jaro similarity equal to
the `double` nearest to `0.07`, `compute_score` returns the `double` product
`7 + 2^-50`, which is not 100 times the library value (it is `2^-52` above). -/
theorem scale_not_exact_counterexample :
    seven_env.lib.jaro_similarity "abc" "xyz" = Except.ok double_seven_hundredths ∧
    to_double (7 / 100) = double_seven_hundredths ∧
    compute_score seven_env "abc" "xyz" M_JARO (1 / 10) =
      7881299347898369 / 1125899906842624 ∧
    compute_score seven_env "abc" "xyz" M_JARO (1 / 10) ≠ double_seven_hundredths * 100 ∧
    compute_score seven_env "abc" "xyz" M_JARO (1 / 10) - double_seven_hundredths * 100 =
      1 / 4503599627370496 := by
  have hscore : compute_score seven_env "abc" "xyz" M_JARO (1 / 10) =
      7881299347898369 / 1125899906842624 := by
    have h : compute_score seven_env "abc" "xyz" M_JARO (1 / 10) =
        double_mul double_seven_hundredths 100 := rfl
    rw [h, double_mul_seven_hundredths]
  refine ⟨rfl, to_double_seven_hundredths, hscore, ?_, ?_⟩
  · rw [hscore]
    norm_num [double_seven_hundredths]
  · rw [hscore]
    norm_num [double_seven_hundredths]

/-- C11 (amended): scale unification in `compute_score`. For each of the 7
normalized metrics the result is the `double` product of the library value and
`100.0`: 100 times the value, rounded to the nearest double, hence within half
a unit of the last place of it and equal to it whenever 100 times the value is
an integer below `2^53`; a library value in `[0, 1]` gives a result in
`[0, 100]`. For each of the 10 fuzz metrics the result is the library value
itself, and for each of the 5 raw-distance metrics it is the library count
itself, hence a non-negative integer whenever the count is non-negative. -/
theorem compute_score_scale (env : Env) (s1 s2 : String) (pw : ℚ) :
    ((∀ v, env.lib.jaro_similarity s1 s2 = Except.ok v →
        compute_score env s1 s2 M_JARO pw = double_mul v 100) ∧
     (∀ v, env.lib.jaro_winkler_similarity s1 s2 pw = Except.ok v →
        compute_score env s1 s2 M_JARO_WINKLER pw = double_mul v 100) ∧
     (∀ v, env.lib.levenshtein_normalized_similarity s1 s2 = Except.ok v →
        compute_score env s1 s2 M_NORM_LEV pw = double_mul v 100) ∧
     (∀ v, env.lib.osa_normalized_similarity s1 s2 = Except.ok v →
        compute_score env s1 s2 M_NORM_OSA pw = double_mul v 100) ∧
     (∀ v, env.lib.hamming_normalized_similarity s1 s2 = Except.ok v →
        compute_score env s1 s2 M_NORM_HAMMING pw = double_mul v 100) ∧
     (∀ v, env.lib.indel_normalized_similarity s1 s2 = Except.ok v →
        compute_score env s1 s2 M_NORM_INDEL pw = double_mul v 100) ∧
     (∀ v, env.lib.lcs_seq_normalized_similarity s1 s2 = Except.ok v →
        compute_score env s1 s2 M_NORM_LCSSEQ pw = double_mul v 100)) ∧
    (∀ v : ℚ, double_mul v 100 = to_double (v * 100)) ∧
    (∀ v : ℚ, |double_mul v 100 - v * 100| ≤ 2 ^ ulp_exp (v * 100) / 2) ∧
    (∀ (v : ℚ) (z : Int), v * 100 = (z : ℚ) → |(z : ℚ)| < 2 ^ (53 : Int) →
      double_mul v 100 = v * 100) ∧
    (∀ v : ℚ, 0 ≤ v → v ≤ 1 → 0 ≤ double_mul v 100 ∧ double_mul v 100 ≤ 100) ∧
    ((∀ v, env.lib.fuzz_ratio s1 s2 = Except.ok v →
        compute_score env s1 s2 M_RATIO pw = v) ∧
     (∀ v, env.lib.fuzz_partial_ratio s1 s2 = Except.ok v →
        compute_score env s1 s2 M_PARTIAL_RATIO pw = v) ∧
     (∀ v, env.lib.fuzz_token_sort_ratio s1 s2 = Except.ok v →
        compute_score env s1 s2 M_TOKEN_SORT pw = v) ∧
     (∀ v, env.lib.fuzz_partial_token_sort_ratio s1 s2 = Except.ok v →
        compute_score env s1 s2 M_PARTIAL_TOKEN_SORT pw = v) ∧
     (∀ v, env.lib.fuzz_token_set_ratio s1 s2 = Except.ok v →
        compute_score env s1 s2 M_TOKEN_SET pw = v) ∧
     (∀ v, env.lib.fuzz_partial_token_set_ratio s1 s2 = Except.ok v →
        compute_score env s1 s2 M_PARTIAL_TOKEN_SET pw = v) ∧
     (∀ v, env.lib.fuzz_token_ratio s1 s2 = Except.ok v →
        compute_score env s1 s2 M_TOKEN_RATIO pw = v) ∧
     (∀ v, env.lib.fuzz_partial_token_ratio s1 s2 = Except.ok v →
        compute_score env s1 s2 M_PARTIAL_TOKEN_RATIO pw = v) ∧
     (∀ v, env.lib.fuzz_WRatio s1 s2 = Except.ok v →
        compute_score env s1 s2 M_WRATIO pw = v) ∧
     (∀ v, env.lib.fuzz_QRatio s1 s2 = Except.ok v →
        compute_score env s1 s2 M_QRATIO pw = v)) ∧
    ((∀ d : Int, env.lib.levenshtein_distance s1 s2 = Except.ok d →
        compute_score env s1 s2 M_LEVENSHTEIN pw = (d : ℚ)) ∧
     (∀ d : Int, env.lib.osa_distance s1 s2 = Except.ok d →
        compute_score env s1 s2 M_OSA pw = (d : ℚ)) ∧
     (∀ d : Int, env.lib.hamming_distance s1 s2 = Except.ok d →
        compute_score env s1 s2 M_HAMMING pw = (d : ℚ)) ∧
     (∀ d : Int, env.lib.indel_distance s1 s2 = Except.ok d →
        compute_score env s1 s2 M_INDEL pw = (d : ℚ)) ∧
     (∀ d : Int, env.lib.lcs_seq_distance s1 s2 = Except.ok d →
        compute_score env s1 s2 M_LCSSEQ pw = (d : ℚ))) ∧
    (∀ d : Int, 0 ≤ d → 0 ≤ (d : ℚ) ∧ ∃ n : Nat, (d : ℚ) = (n : ℚ)) := by
  refine ⟨⟨?_, ?_, ?_, ?_, ?_, ?_, ?_⟩, fun v => rfl, ?_, ?_, ?_,
    ⟨?_, ?_, ?_, ?_, ?_, ?_, ?_, ?_, ?_, ?_⟩, ⟨?_, ?_, ?_, ?_, ?_⟩, ?_⟩
  case refine_8 =>
    intro v
    exact to_double_error (v * 100)
  case refine_9 =>
    intro v z hz hbig
    unfold double_mul
    rw [hz, to_double_int z hbig]
  case refine_10 =>
    intro v h0 h1
    have h := to_double_range (v * 100) 100 (by linarith) (by push_cast; linarith)
      (by
        have h53 : (100 : ℚ) < 2 ^ (53 : Int) := by norm_num
        linarith)
    simpa [double_mul] using h
  case refine_26 =>
    intro d hd
    refine ⟨by exact_mod_cast hd, d.toNat, ?_⟩
    exact_mod_cast (Int.toNat_of_nonneg hd).symm
  all_goals
    intro v h
    simp [compute_score, score_switch, h, Except.map]

/-! ## Theorems: usage errors -/

/-- C7: call-level usage errors, and the input on which the count test fails
to report one. `stata_call` returns 198 and performs no `SF_vstore` when no
mode is given, when the mode is neither `pairwise` nor `match`, when the
method argument is absent or is not a catalog name (in either mode), when
`pairwise` is called on a table whose variable count is not 3, when `match` is
called with fewer than 4 arguments, and when `match` is called with an `int`
sum `n_master + n_ref` different from the number of observations; that covers
every pair of `int` counts of which one is non-negative and whose sum differs
from the number of observations. For the counts `-2147483648` and
`-2147483643` on a table of 5 observations the sum is not 5, yet it wraps to 5:
the test of line 224 passes, the vector constructor raises, and the call
returns 909 instead of 198 (still without any `SF_vstore`). -/
theorem stata_call_usage_errors (env : Env) (ds : Dataset) :
    usage_error (stata_call env ds []) ∧
    (∀ (mode : String) (rest : List String), mode ≠ "pairwise" → mode ≠ "match" →
      usage_error (stata_call env ds (mode :: rest))) ∧
    usage_error (stata_call env ds ["pairwise"]) ∧
    usage_error (stata_call env ds ["match"]) ∧
    (∀ (name : String) (rest : List String), parse_method name = M_INVALID →
      usage_error (stata_call env ds ("pairwise" :: name :: rest))) ∧
    (∀ (name : String) (rest : List String), parse_method name = M_INVALID →
      usage_error (stata_call env ds ("match" :: name :: rest))) ∧
    (∀ rest : List String, ds.nvar ≠ 3 →
      usage_error (stata_call env ds ("pairwise" :: rest))) ∧
    (∀ rest : List String, rest.length < 3 →
      usage_error (stata_call env ds ("match" :: rest))) ∧
    (∀ (name a2 a3 : String) (opts : List String),
      to_int32 (env.atoi a2 + env.atoi a3) ≠ to_int32 (ds.nobs : Int) →
      usage_error (stata_call env ds ("match" :: name :: a2 :: a3 :: opts))) ∧
    (∀ (name a2 a3 : String) (opts : List String),
      -2147483648 ≤ env.atoi a2 → env.atoi a2 < 2147483648 →
      -2147483648 ≤ env.atoi a3 → env.atoi a3 < 2147483648 →
      (ds.nobs : Int) < 2147483648 →
      0 ≤ env.atoi a2 ∨ 0 ≤ env.atoi a3 →
      env.atoi a2 + env.atoi a3 ≠ (ds.nobs : Int) →
      usage_error (stata_call env ds ("match" :: name :: a2 :: a3 :: opts))) ∧
    (signed_env.atoi "-2147483648" = -2147483648 ∧
     signed_env.atoi "-2147483643" = -2147483643 ∧
     (sample_table ["a", "b", "c", "d", "e"] [] 3).nobs = 5 ∧
     signed_env.atoi "-2147483648" + signed_env.atoi "-2147483643" ≠
       ((sample_table ["a", "b", "c", "d", "e"] [] 3).nobs : Int) ∧
     to_int32 (signed_env.atoi "-2147483648" + signed_env.atoi "-2147483643") = 5 ∧
     stata_call signed_env (sample_table ["a", "b", "c", "d", "e"] [] 3)
        ["match", "ratio", "-2147483648", "-2147483643"] =
       ⟨909, [Effect.error "rapidfuzz: std::length_error\n"]⟩ ∧
     ¬ usage_error (stata_call signed_env (sample_table ["a", "b", "c", "d", "e"] [] 3)
        ["match", "ratio", "-2147483648", "-2147483643"])) := by
  have hpm : ¬ ("match" = "pairwise") := by decide
  have hwrap : ∀ (name a2 a3 : String) (opts : List String),
      to_int32 (env.atoi a2 + env.atoi a3) ≠ to_int32 (ds.nobs : Int) →
      usage_error (stata_call env ds ("match" :: name :: a2 :: a3 :: opts)) := by
    intro name a2 a3 opts hsum
    have hsum2 : ¬ (to_int32 (ds.nobs : Int) = to_int32 (env.atoi a2 + env.atoi a3)) :=
      fun h => hsum h.symm
    by_cases hinv : parse_method name = M_INVALID <;>
      simp [usage_error, stata_call, do_match, vstores, hpm, hinv, hsum2]
  have hfail : stata_call signed_env (sample_table ["a", "b", "c", "d", "e"] [] 3)
        ["match", "ratio", "-2147483648", "-2147483643"] =
       ⟨909, [Effect.error "rapidfuzz: std::length_error\n"]⟩ := by decide
  refine ⟨?_, ?_, ?_, ?_, ?_, ?_, ?_, ?_, hwrap, ?_, by decide, by decide, by decide,
    by decide, by decide, hfail, ?_⟩
  · simp [usage_error, stata_call, vstores]
  · intro mode rest h1 h2
    simp [usage_error, stata_call, vstores, h1, h2]
  · simp [usage_error, stata_call, do_pairwise, vstores]
  · simp [usage_error, stata_call, do_match, vstores, hpm]
  · intro name rest hinv
    simp [usage_error, stata_call, do_pairwise, vstores, hinv]
  · intro name rest hinv
    rcases rest with _ | ⟨a2, _ | ⟨a3, opts⟩⟩ <;>
      simp [usage_error, stata_call, do_match, vstores, hpm, hinv]
  · intro rest hv
    rcases rest with _ | ⟨name, opts⟩
    · simp [usage_error, stata_call, do_pairwise, vstores]
    · by_cases hinv : parse_method name = M_INVALID <;>
        simp [usage_error, stata_call, do_pairwise, vstores, hinv, hv]
  · intro rest hlen
    rcases rest with _ | ⟨name, _ | ⟨a2, _ | ⟨a3, opts⟩⟩⟩
    · simp [usage_error, stata_call, do_match, vstores, hpm]
    · simp [usage_error, stata_call, do_match, vstores, hpm]
    · simp [usage_error, stata_call, do_match, vstores, hpm]
    · simp at hlen
      omega
  · intro name a2 a3 opts h2l h2u h3l h3u hn hone hsum
    apply hwrap
    unfold to_int32
    omega
  · rw [hfail]
    simp [usage_error]

/-! ## Theorems: the tie-break -/

/-- The claim of C2 fails when no score beats the initial value of `best`.
With a Hamming count of `2e18`, the master `ab` has a missing comparison
against `a` and the non-missing score `2e18` against both `cd` and `ef`, which
so tie at the extreme score; `do_match` writes the best score `1e18` and the
index 1, which is the index of `a`, not of `cd`, the earliest of the two. -/
theorem tie_break_sentinel_counterexample :
    (∃ tr : List Effect,
      do_match far_env (sample_table ["ab", "a", "cd", "ef"] [] 3)
        ["match", "hamming", "1", "3"] = Except.ok ⟨0, tr⟩ ∧
      stores_at tr 1 = [(2, 1000000000000000000), (3, 1)]) ∧
    ref_of far_env (sample_table ["ab", "a", "cd", "ef"] [] 3) "1" "3" [] =
      ["a", "cd", "ef"] ∧
    far_env.SF_is_missing (pair_score far_env "hamming" [] "ab" "a") = true ∧
    far_env.SF_is_missing (pair_score far_env "hamming" [] "ab" "cd") = false ∧
    far_env.SF_is_missing (pair_score far_env "hamming" [] "ab" "ef") = false ∧
    pair_score far_env "hamming" [] "ab" "cd" = 2000000000000000000 ∧
    pair_score far_env "hamming" [] "ab" "ef" = 2000000000000000000 ∧
    (∀ r ∈ ref_of far_env (sample_table ["ab", "a", "cd", "ef"] [] 3) "1" "3" [],
      far_env.SF_is_missing (pair_score far_env "hamming" [] "ab" r) = false →
      pair_score far_env "hamming" [] "ab" "cd" ≤ pair_score far_env "hamming" [] "ab" r) := by
  refine ⟨⟨_, do_match_ok far_env (sample_table ["ab", "a", "cd", "ef"] [] 3)
      "match" "hamming" "1" "3" [] (by decide) (by decide) (by decide) (by decide),
      by decide⟩, by decide, by decide, by decide, by decide, by decide, by decide,
    by decide⟩

/-- C2 (amended): the tie-break of `do_match`. In a successful call the stores
of master record `i` are a best score and `best_j + 1`, and every reference
index below `best_j` has a score that is missing or strictly worse than the
best score (strictly lower for a similarity metric, strictly higher for a
raw-distance metric). When some non-missing score beats the initial value of
`best` (it is above `-1.0` for a similarity metric, below `1e18` for a
raw-distance metric), the reference at `best_j` has a non-missing score equal
to the written best score, no non-missing score is better, and every reference
whose non-missing score equals the written best score has an index of at least
`best_j`: of the references that reach the extreme score the earliest is the
one written. -/
theorem do_match_tie_break (env : Env) (ds : Dataset)
    (mode name a2 a3 : String) (opts : List String)
    (hname : parse_method name ≠ M_INVALID)
    (h2 : 0 ≤ env.atoi a2) (h3 : 0 ≤ env.atoi a3)
    (hobs : (ds.nobs : Int) = env.atoi a2 + env.atoi a3)
    (i : Nat) (m : String) (hm : (master_of env ds a2 opts)[i]? = some m) :
    ∃ (tr : List Effect) (best : ℚ) (best_j : Nat),
      do_match env ds (mode :: name :: a2 :: a3 :: opts) = Except.ok ⟨0, tr⟩ ∧
      stores_at tr ((i : Int) + 1) = [(2, best), (3, ((best_j + 1 : Nat) : ℚ))] ∧
      (∀ (j : Nat) (r : String), j < best_j →
        (ref_of env ds a2 a3 opts)[j]? = some r →
        env.SF_is_missing (pair_score env name opts m r) = true ∨
        (if is_similarity_method (parse_method name) = true
         then pair_score env name opts m r < best
         else best < pair_score env name opts m r)) ∧
      ((∃ r ∈ ref_of env ds a2 a3 opts,
          env.SF_is_missing (pair_score env name opts m r) = false ∧
          (if is_similarity_method (parse_method name) = true
           then -1 < pair_score env name opts m r
           else pair_score env name opts m r < 1000000000000000000)) →
        (∃ r0 : String, (ref_of env ds a2 a3 opts)[best_j]? = some r0 ∧
          env.SF_is_missing (pair_score env name opts m r0) = false ∧
          pair_score env name opts m r0 = best) ∧
        (∀ r ∈ ref_of env ds a2 a3 opts,
          env.SF_is_missing (pair_score env name opts m r) = false →
          if is_similarity_method (parse_method name) = true
          then pair_score env name opts m r ≤ best
          else best ≤ pair_score env name opts m r) ∧
        (∀ (j : Nat) (r : String), (ref_of env ds a2 a3 opts)[j]? = some r →
          env.SF_is_missing (pair_score env name opts m r) = false →
          pair_score env name opts m r = best → best_j ≤ j)) := by
  obtain ⟨tr, hrun, hst⟩ := do_match_stores env ds mode name a2 a3 opts hname h2 h3 hobs i m hm
  refine ⟨tr, _, _, hrun, hst, ?_⟩
  unfold best_match
  have hbetter_iff : ∀ s b : ℚ,
      better (is_similarity_method (parse_method name)) s b ↔
        (if is_similarity_method (parse_method name) = true then b < s else s < b) := by
    intro s b
    by_cases hsim : is_similarity_method (parse_method name) = true
    · simp [better, hsim]
    · have hsim2 : is_similarity_method (parse_method name) = false := by
        simpa using hsim
      simp [better, hsim2]
  have hnot_better : ∀ s b : ℚ,
      ¬ better (is_similarity_method (parse_method name)) s b →
        (if is_similarity_method (parse_method name) = true then s ≤ b else b ≤ s) := by
    intro s b hnb
    by_cases hsim : is_similarity_method (parse_method name) = true
    · simp only [hsim, if_true]
      simp only [better, hsim, if_true, gt_iff_lt, not_lt] at hnb
      exact hnb
    · have hsim2 : is_similarity_method (parse_method name) = false := by
        simpa using hsim
      simp only [hsim2]
      simp only [better, hsim2, not_lt] at hnb
      simpa using hnb
  rcases scan_refs_spec env (parse_method name) (parse_flags env opts).2
      (is_similarity_method (parse_method name)) m (ref_of env ds a2 a3 opts) 0
      (if is_similarity_method (parse_method name) = true then -1
        else 1000000000000000000, 0) with
    ⟨hres, hall⟩ | ⟨k, r, hk, hres, hnm, _, hmax, htie⟩
  · rw [hres]
    refine ⟨?_, ?_⟩
    · intro j r hj
      simp at hj
    · intro hbeat
      exfalso
      obtain ⟨r, hr, hnm, hb⟩ := hbeat
      rcases hall r hr with hmiss | hnb
      · have hnm2 : env.SF_is_missing
            (compute_score env m r (parse_method name) (parse_flags env opts).2) = false :=
          hnm
        rw [hmiss] at hnm2
        exact absurd hnm2 (by simp)
      · apply hnb
        rw [hbetter_iff]
        by_cases hsim : is_similarity_method (parse_method name) = true
        · simp only [hsim, if_true] at hb ⊢
          exact hb
        · have hsim2 : is_similarity_method (parse_method name) = false := by
            simpa using hsim
          simp only [hsim2] at hb ⊢
          simpa [pair_score] using hb
  · rw [hres]
    have hworse : ∀ (j : Nat) (r2 : String), j < k →
        (ref_of env ds a2 a3 opts)[j]? = some r2 →
        env.SF_is_missing (pair_score env name opts m r2) = true ∨
        (if is_similarity_method (parse_method name) = true
         then pair_score env name opts m r2 <
           compute_score env m r (parse_method name) (parse_flags env opts).2
         else compute_score env m r (parse_method name) (parse_flags env opts).2 <
           pair_score env name opts m r2) := by
      intro j r2 hj hget
      rcases htie j r2 hj hget with hmiss | hbt
      · exact Or.inl hmiss
      · right
        exact (hbetter_iff _ _).mp hbt
    have hearliest : ∀ (j : Nat) (r2 : String),
        (ref_of env ds a2 a3 opts)[j]? = some r2 →
        env.SF_is_missing (pair_score env name opts m r2) = false →
        pair_score env name opts m r2 =
          compute_score env m r (parse_method name) (parse_flags env opts).2 →
        0 + k ≤ j := by
      intro j r2 hget hnm2 heq
      by_contra hlt
      have hjk : j < k := by omega
      rcases hworse j r2 hjk hget with hmiss | hlt2
      · rw [hmiss] at hnm2
        exact absurd hnm2 (by simp)
      · by_cases hsim : is_similarity_method (parse_method name) = true
        · simp only [hsim, if_true] at hlt2
          rw [heq] at hlt2
          exact lt_irrefl _ hlt2
        · have hsim2 : is_similarity_method (parse_method name) = false := by
            simpa using hsim
          simp only [hsim2] at hlt2
          rw [heq] at hlt2
          exact lt_irrefl _ hlt2
    refine ⟨?_, ?_⟩
    · intro j r2 hj hget
      exact hworse j r2 (by simpa using hj) hget
    · intro _
      refine ⟨⟨r, by simpa using hk, hnm, rfl⟩, ?_, hearliest⟩
      intro r2 hr2 hnm2
      exact hnot_better _ _ (hmax r2 hr2 hnm2)

/-- A concrete instance: Hamming match of the master `abc` against `abd`, `ab`,
`abc`, `abc`. The first score is 1, the second comparison is missing, and the
last two references tie at the best score 0: the stores are 0 and the index 3,
and a score beats the initial value. -/
theorem do_match_tie_break_witness :
    (∃ (tr : List Effect) (best : ℚ) (best_j : Nat),
      do_match sample_env (sample_table ["abc", "abd", "ab", "abc", "abc"] [] 3)
        ["match", "hamming", "1", "4"] = Except.ok ⟨0, tr⟩ ∧
      stores_at tr ((0 : Nat) + 1) = [(2, best), (3, ((best_j + 1 : Nat) : ℚ))] ∧
      (∀ (j : Nat) (r : String), j < best_j →
        (ref_of sample_env (sample_table ["abc", "abd", "ab", "abc", "abc"] [] 3)
          "1" "4" [])[j]? = some r →
        sample_env.SF_is_missing (pair_score sample_env "hamming" [] "abc" r) = true ∨
        (if is_similarity_method (parse_method "hamming") = true
         then pair_score sample_env "hamming" [] "abc" r < best
         else best < pair_score sample_env "hamming" [] "abc" r)) ∧
      ((∃ r ∈ ref_of sample_env (sample_table ["abc", "abd", "ab", "abc", "abc"] [] 3)
            "1" "4" [],
          sample_env.SF_is_missing (pair_score sample_env "hamming" [] "abc" r) = false ∧
          (if is_similarity_method (parse_method "hamming") = true
           then -1 < pair_score sample_env "hamming" [] "abc" r
           else pair_score sample_env "hamming" [] "abc" r < 1000000000000000000)) →
        (∃ r0 : String,
          (ref_of sample_env (sample_table ["abc", "abd", "ab", "abc", "abc"] [] 3)
            "1" "4" [])[best_j]? = some r0 ∧
          sample_env.SF_is_missing (pair_score sample_env "hamming" [] "abc" r0) = false ∧
          pair_score sample_env "hamming" [] "abc" r0 = best) ∧
        (∀ r ∈ ref_of sample_env (sample_table ["abc", "abd", "ab", "abc", "abc"] [] 3)
            "1" "4" [],
          sample_env.SF_is_missing (pair_score sample_env "hamming" [] "abc" r) = false →
          if is_similarity_method (parse_method "hamming") = true
          then pair_score sample_env "hamming" [] "abc" r ≤ best
          else best ≤ pair_score sample_env "hamming" [] "abc" r) ∧
        (∀ (j : Nat) (r : String),
          (ref_of sample_env (sample_table ["abc", "abd", "ab", "abc", "abc"] [] 3)
            "1" "4" [])[j]? = some r →
          sample_env.SF_is_missing (pair_score sample_env "hamming" [] "abc" r) = false →
          pair_score sample_env "hamming" [] "abc" r = best → best_j ≤ j))) ∧
    (∃ r ∈ ref_of sample_env (sample_table ["abc", "abd", "ab", "abc", "abc"] [] 3)
          "1" "4" [],
        sample_env.SF_is_missing (pair_score sample_env "hamming" [] "abc" r) = false ∧
        (if is_similarity_method (parse_method "hamming") = true
         then -1 < pair_score sample_env "hamming" [] "abc" r
         else pair_score sample_env "hamming" [] "abc" r < 1000000000000000000)) ∧
    (∃ tr : List Effect,
      do_match sample_env (sample_table ["abc", "abd", "ab", "abc", "abc"] [] 3)
        ["match", "hamming", "1", "4"] = Except.ok ⟨0, tr⟩ ∧
      stores_at tr 1 = [(2, 0), (3, 3)]) :=
  ⟨do_match_tie_break sample_env
      (sample_table ["abc", "abd", "ab", "abc", "abc"] [] 3)
      "match" "hamming" "1" "4" [] (by decide) (by decide) (by decide) (by decide)
      0 "abc" (by decide),
    ⟨"abd", by decide, by decide, by decide⟩,
    ⟨_, do_match_ok sample_env (sample_table ["abc", "abd", "ab", "abc", "abc"] [] 3)
      "match" "hamming" "1" "4" [] (by decide) (by decide) (by decide) (by decide),
      by decide⟩⟩

/-! ## The text of a progress message -/

theorem digitChar_value (k : Nat) (hk : k < 10) :
    (Nat.digitChar k).toNat - 48 = k ∧ (Nat.digitChar k).isDigit = true := by
  interval_cases k <;> decide

theorem toDigitsCore_value (fuel : Nat) :
    ∀ (n : Nat) (ds : List Char), n < fuel →
      (Nat.toDigitsCore 10 fuel n ds).foldl (fun acc c => 10 * acc + (c.toNat - 48)) 0 =
        ds.foldl (fun acc c => 10 * acc + (c.toNat - 48)) n := by
  induction fuel with
  | zero =>
    intro n ds h
    omega
  | succ fuel ih =>
    intro n ds h
    simp only [Nat.toDigitsCore]
    have hd := (digitChar_value (n % 10) (Nat.mod_lt n (by norm_num))).1
    by_cases hz : n / 10 = 0
    · simp only [hz, if_true, List.foldl_cons, hd]
      have hmod : n % 10 = n := by omega
      simp [hmod]
    · simp only [hz, if_false]
      rw [ih (n / 10) _ (by omega)]
      simp only [List.foldl_cons, hd]
      have hdm : 10 * (n / 10) + n % 10 = n := Nat.div_add_mod n 10
      rw [hdm]

theorem toDigitsCore_isDigit (fuel : Nat) :
    ∀ (n : Nat) (ds : List Char), (∀ c ∈ ds, c.isDigit = true) →
      ∀ c ∈ Nat.toDigitsCore 10 fuel n ds, c.isDigit = true := by
  induction fuel with
  | zero =>
    intro n ds h c hc
    exact h c hc
  | succ fuel ih =>
    intro n ds h
    simp only [Nat.toDigitsCore]
    have hd := (digitChar_value (n % 10) (Nat.mod_lt n (by norm_num))).2
    have hds : ∀ c ∈ Nat.digitChar (n % 10) :: ds, c.isDigit = true := by
      intro c hc
      rcases List.mem_cons.mp hc with rfl | hc
      · exact hd
      · exact h c hc
    by_cases hz : n / 10 = 0
    · simp only [hz, if_true]
      exact hds
    · simp only [hz, if_false]
      exact ih _ _ hds

/-- The decimal digits of `n` write `n`. -/
theorem digits_value_toDigits (n : Nat) : digits_value (Nat.toDigits 10 n) = n := by
  unfold digits_value Nat.toDigits
  rw [toDigitsCore_value (n + 1) n [] (by omega)]
  rfl

theorem toDigits_isDigit (n : Nat) : ∀ c ∈ Nat.toDigits 10 n, c.isDigit = true :=
  toDigitsCore_isDigit (n + 1) n [] (by simp)

theorem takeWhile_append_stop (p : Char → Bool) (l r : List Char) (c : Char)
    (hl : ∀ x ∈ l, p x = true) (hc : p c = false) :
    (l ++ c :: r).takeWhile p = l ∧ (l ++ c :: r).dropWhile p = c :: r := by
  induction l with
  | nil => simp [List.takeWhile, List.dropWhile, hc]
  | cons x xs ih =>
    have hx : p x = true := hl x (List.mem_cons_self x xs)
    have ih2 := ih (fun y hy => hl y (List.mem_cons_of_mem x hy))
    simp [List.takeWhile, List.dropWhile, hx, ih2.1, ih2.2]

/-- The characters of the message of the pair `(a, t)`: `  matched `, the
decimal digits of `a`, ` of `, the decimal digits of `t`, and a line feed. -/
theorem progress_msg_data (a t : Nat) :
    (progress_msg (a : Int) (t : Int)).data =
      "  matched ".data ++ (Nat.toDigits 10 a ++ (' ' :: 'o' :: 'f' :: ' ' ::
        (Nat.toDigits 10 t ++ ['\n']))) := by
  simp [progress_msg, toString, Int.repr, Nat.repr, List.asString]

/-- A progress message carries its pair: both numbers can be read back. -/
theorem msg_pair_progress_msg (a t : Nat) :
    msg_done (progress_msg (a : Int) (t : Int)) = a ∧
    msg_total (progress_msg (a : Int) (t : Int)) = t := by
  unfold msg_done msg_total
  rw [progress_msg_data]
  have hdrop : ∀ l : List Char, ("  matched ".data ++ l).drop 10 = l := by
    intro l
    rfl
  rw [hdrop]
  have h1 := takeWhile_append_stop Char.isDigit (Nat.toDigits 10 a)
    ('o' :: 'f' :: ' ' :: (Nat.toDigits 10 t ++ ['\n'])) ' ' (toDigits_isDigit a)
    (by decide)
  rw [h1.1, h1.2]
  have hdrop2 : ∀ l : List Char, (' ' :: 'o' :: 'f' :: ' ' :: l).drop 4 = l := by
    intro l
    rfl
  rw [hdrop2]
  have h2 := takeWhile_append_stop Char.isDigit (Nat.toDigits 10 t) [] '\n'
    (toDigits_isDigit t) (by decide)
  rw [h2.1]
  exact ⟨digits_value_toDigits a, digits_value_toDigits t⟩

/-- Messages of different pairs are different texts. -/
theorem progress_msg_injective (a t b u : Nat)
    (h : progress_msg (a : Int) (t : Int) = progress_msg (b : Int) (u : Int)) :
    a = b ∧ t = u := by
  have ha := msg_pair_progress_msg a t
  have hb := msg_pair_progress_msg b u
  rw [h] at ha
  exact ⟨ha.1.symm.trans hb.1, ha.2.symm.trans hb.2⟩

/-! ## Theorems: progress messages -/

/-- C13: the progress rule of `do_match`. In a successful call with `n` master
records and `r = max(1, n div 10)`, the interval of line 242-243 is `r`; the
trace is, record by record (0-based `i`), the two stores of the record followed
by a message exactly when `r` divides `i + 1`, the message being the text
`  matched <i+1> of <n>` with a line feed, from which both numbers can be read
back; so the messages of the call are those of `(r, n)`, `(2r, n)`, ...,
`((n div r) * r, n)`: the first numbers read from the messages are `r`, `2r`,
..., strictly increasing, and the second number of each is `n`; and the stores
are the ones the loop performs with interval 0, where it emits no message. -/
theorem do_match_progress (env : Env) (ds : Dataset)
    (mode name a2 a3 : String) (opts : List String) (n r : Nat)
    (hname : parse_method name ≠ M_INVALID)
    (hn : env.atoi a2 = (n : Int)) (h3 : 0 ≤ env.atoi a3)
    (hobs : (ds.nobs : Int) = env.atoi a2 + env.atoi a3)
    (hr : r = max 1 (n / 10)) :
    report_interval (env.atoi a2) = (r : Int) ∧
    (∀ a t : Nat, msg_done (progress_msg (a : Int) (t : Int)) = a ∧
      msg_total (progress_msg (a : Int) (t : Int)) = t) ∧
    progress_msg 3 12 = "  matched 3 of 12\n" ∧
    ∃ tr : List Effect,
      do_match env ds (mode :: name :: a2 :: a3 :: opts) = Except.ok ⟨0, tr⟩ ∧
      (master_of env ds a2 opts).length = n ∧
      tr = (master_of env ds a2 opts).enum.flatMap (fun p =>
        [Effect.vstore 2 ((p.1 : Int) + 1)
           (best_match env (parse_method name) (parse_flags env opts).2
             (is_similarity_method (parse_method name)) (ref_of env ds a2 a3 opts) p.2).1,
         Effect.vstore 3 ((p.1 : Int) + 1)
           (((best_match env (parse_method name) (parse_flags env opts).2
             (is_similarity_method (parse_method name)) (ref_of env ds a2 a3 opts) p.2).2
             + 1 : Nat) : ℚ)] ++
        (if r ∣ p.1 + 1 then
           [Effect.display (progress_msg (((p.1 + 1 : Nat) : Int)) (n : Int))]
         else [])) ∧
      displays tr = (List.range (n / r)).map (fun (k : Nat) =>
        progress_msg (((k + 1) * r : Nat) : Int) (n : Int)) ∧
      (displays tr).map msg_done = (List.range (n / r)).map (fun (k : Nat) => (k + 1) * r) ∧
      (∀ msg ∈ displays tr, msg_total msg = n) ∧
      List.Pairwise (fun a b : Nat => a < b) ((displays tr).map msg_done) ∧
      vstores tr = vstores (match_loop env (parse_method name) (parse_flags env opts).2
        (is_similarity_method (parse_method name)) (ref_of env ds a2 a3 opts)
        (n : Int) 0 (master_of env ds a2 opts) 0) ∧
      displays (match_loop env (parse_method name) (parse_flags env opts).2
        (is_similarity_method (parse_method name)) (ref_of env ds a2 a3 opts)
        (n : Int) 0 (master_of env ds a2 opts) 0) = [] := by
  subst hr
  obtain ⟨hrun, hlen⟩ := do_match_trace env ds mode name a2 a3 opts n hname hn h3 hobs
  have hdisp := displays_match_loop env (parse_method name) (parse_flags env opts).2
    (is_similarity_method (parse_method name)) (ref_of env ds a2 a3 opts) (n : Int)
    (max 1 (n / 10)) (master_of env ds a2 opts)
  rw [hlen] at hdisp
  have hdone : (displays (match_loop env (parse_method name) (parse_flags env opts).2
      (is_similarity_method (parse_method name)) (ref_of env ds a2 a3 opts) (n : Int)
      ((max 1 (n / 10) : Nat) : Int) (master_of env ds a2 opts) 0)).map msg_done =
      (List.range (n / max 1 (n / 10))).map (fun (k : Nat) => (k + 1) * max 1 (n / 10)) := by
    rw [hdisp, List.map_map]
    apply List.map_congr_left
    intro k _
    exact (msg_pair_progress_msg _ _).1
  refine ⟨by rw [hn, report_interval_natCast], msg_pair_progress_msg, by decide, _, hrun,
    hlen, ?_, hdisp, hdone, ?_, ?_, ?_, ?_⟩
  · rw [match_loop_eq_flatMap]
    simp only [record_effects_eq, List.enum]
    congr 1
  · intro msg hmsg
    rw [hdisp] at hmsg
    obtain ⟨k, _, hk⟩ := List.mem_map.mp hmsg
    rw [← hk]
    exact (msg_pair_progress_msg _ _).2
  · rw [hdone]
    apply List.Pairwise.map _ _ (List.pairwise_lt_range _)
    intro a b hab
    have hpos : 0 < max 1 (n / 10) := by omega
    exact Nat.mul_lt_mul_of_pos_right (by omega) hpos
  · rw [vstores_match_loop, vstores_match_loop]
  · exact displays_match_loop_zero _ _ _ _ _ _ _ 0

/-- A concrete instance: 20 master records `abc` and one reference `abd` under
Hamming, where the interval is 2 and the ten messages are those of the records
2, 4, ..., 20. -/
theorem do_match_progress_witness :
    (report_interval (sample_env.atoi "20") = ((2 : Nat) : Int) ∧
    (∀ a t : Nat, msg_done (progress_msg (a : Int) (t : Int)) = a ∧
      msg_total (progress_msg (a : Int) (t : Int)) = t) ∧
    progress_msg 3 12 = "  matched 3 of 12\n" ∧
    ∃ tr : List Effect,
      do_match sample_env (sample_table (List.replicate 20 "abc" ++ ["abd"]) [] 3)
        ["match", "hamming", "20", "1"] = Except.ok ⟨0, tr⟩ ∧
      (master_of sample_env (sample_table (List.replicate 20 "abc" ++ ["abd"]) [] 3)
        "20" []).length = 20 ∧
      tr = (master_of sample_env (sample_table (List.replicate 20 "abc" ++ ["abd"]) [] 3)
          "20" []).enum.flatMap (fun p =>
        [Effect.vstore 2 ((p.1 : Int) + 1)
           (best_match sample_env (parse_method "hamming") (parse_flags sample_env []).2
             (is_similarity_method (parse_method "hamming"))
             (ref_of sample_env (sample_table (List.replicate 20 "abc" ++ ["abd"]) [] 3)
               "20" "1" []) p.2).1,
         Effect.vstore 3 ((p.1 : Int) + 1)
           (((best_match sample_env (parse_method "hamming") (parse_flags sample_env []).2
             (is_similarity_method (parse_method "hamming"))
             (ref_of sample_env (sample_table (List.replicate 20 "abc" ++ ["abd"]) [] 3)
               "20" "1" []) p.2).2
             + 1 : Nat) : ℚ)] ++
        (if 2 ∣ p.1 + 1 then
           [Effect.display (progress_msg (((p.1 + 1 : Nat) : Int)) ((20 : Nat) : Int))]
         else [])) ∧
      displays tr = (List.range (20 / 2)).map (fun (k : Nat) =>
        progress_msg (((k + 1) * 2 : Nat) : Int) ((20 : Nat) : Int)) ∧
      (displays tr).map msg_done = (List.range (20 / 2)).map (fun (k : Nat) => (k + 1) * 2) ∧
      (∀ msg ∈ displays tr, msg_total msg = 20) ∧
      List.Pairwise (fun a b : Nat => a < b) ((displays tr).map msg_done) ∧
      vstores tr = vstores (match_loop sample_env (parse_method "hamming")
        (parse_flags sample_env []).2 (is_similarity_method (parse_method "hamming"))
        (ref_of sample_env (sample_table (List.replicate 20 "abc" ++ ["abd"]) [] 3)
          "20" "1" [])
        ((20 : Nat) : Int) 0
        (master_of sample_env (sample_table (List.replicate 20 "abc" ++ ["abd"]) [] 3)
          "20" []) 0) ∧
      displays (match_loop sample_env (parse_method "hamming")
        (parse_flags sample_env []).2 (is_similarity_method (parse_method "hamming"))
        (ref_of sample_env (sample_table (List.replicate 20 "abc" ++ ["abd"]) [] 3)
          "20" "1" [])
        ((20 : Nat) : Int) 0
        (master_of sample_env (sample_table (List.replicate 20 "abc" ++ ["abd"]) [] 3)
          "20" []) 0) = []) ∧
    (∃ tr : List Effect,
      do_match sample_env (sample_table (List.replicate 20 "abc" ++ ["abd"]) [] 3)
        ["match", "hamming", "20", "1"] = Except.ok ⟨0, tr⟩ ∧
      displays tr =
        ["  matched 2 of 20\n", "  matched 4 of 20\n", "  matched 6 of 20\n",
         "  matched 8 of 20\n", "  matched 10 of 20\n", "  matched 12 of 20\n",
         "  matched 14 of 20\n", "  matched 16 of 20\n", "  matched 18 of 20\n",
         "  matched 20 of 20\n"]) :=
  ⟨do_match_progress sample_env
      (sample_table (List.replicate 20 "abc" ++ ["abd"]) [] 3)
      "match" "hamming" "20" "1" [] 20 2 (by decide) (by decide) (by decide) (by decide)
      (by decide),
    ⟨_, do_match_ok sample_env (sample_table (List.replicate 20 "abc" ++ ["abd"]) [] 3)
      "match" "hamming" "20" "1" [] (by decide) (by decide) (by decide) (by decide),
      by decide⟩⟩

/-- C17: the reporting interval of `do_match` is at least 1 for every count
(zero and negative counts included), so the modulus of line 262 never divides
by zero. In a successful call with `n` master records and interval
`r = max(1, n div 10)` the number of messages is `n div r`; for `1 <= n < 20`
the interval is 1 and a message follows every record; for `n >= 10` there are
at least 10 and at most 19 messages; the last message is the one of
`((n div r) * r, n)`, so the first number read from it is `(n div r) * r`, and
it is the message of `(n, n)` exactly when `r` divides `n`; for `n = 25` the
interval is 2 and the last message is the text `  matched 24 of 25`, not the
message of `(25, 25)`. -/
theorem do_match_report_counts (env : Env) (ds : Dataset)
    (mode name a2 a3 : String) (opts : List String) (n r : Nat)
    (hname : parse_method name ≠ M_INVALID)
    (hn : env.atoi a2 = (n : Int)) (h3 : 0 ≤ env.atoi a3)
    (hobs : (ds.nobs : Int) = env.atoi a2 + env.atoi a3)
    (hr : r = max 1 (n / 10)) :
    (∀ z : Int, 1 ≤ report_interval z ∧ report_interval z ≠ 0) ∧
    report_interval 0 = 1 ∧
    report_interval (env.atoi a2) = (r : Int) ∧
    progress_msg 24 25 = "  matched 24 of 25\n" ∧
    ∃ tr : List Effect,
      do_match env ds (mode :: name :: a2 :: a3 :: opts) = Except.ok ⟨0, tr⟩ ∧
      (displays tr).length = n / r ∧
      (1 ≤ n → n < 20 → r = 1 ∧
        displays tr = (List.range n).map (fun (k : Nat) =>
          progress_msg ((k : Int) + 1) (n : Int)) ∧
        (displays tr).map msg_done = (List.range n).map (fun (k : Nat) => k + 1)) ∧
      (10 ≤ n → 10 ≤ (displays tr).length ∧ (displays tr).length ≤ 19) ∧
      (1 ≤ n → (displays tr).getLast? =
        some (progress_msg (((n / r) * r : Nat) : Int) (n : Int))) ∧
      (1 ≤ n → (displays tr).getLast?.map msg_done = some ((n / r) * r)) ∧
      (1 ≤ n → ((displays tr).getLast? = some (progress_msg (n : Int) (n : Int)) ↔ r ∣ n)) ∧
      ((n / r) * r = n ↔ r ∣ n) ∧
      (n = 25 → r = 2 ∧ (displays tr).getLast? = some "  matched 24 of 25\n" ∧
        (displays tr).getLast? ≠ some (progress_msg 25 25) ∧
        (displays tr).getLast?.map msg_done = some 24) := by
  subst hr
  obtain ⟨hrun, hlen⟩ := do_match_trace env ds mode name a2 a3 opts n hname hn h3 hobs
  have hdisp := displays_match_loop env (parse_method name) (parse_flags env opts).2
    (is_similarity_method (parse_method name)) (ref_of env ds a2 a3 opts) (n : Int)
    (max 1 (n / 10)) (master_of env ds a2 opts)
  rw [hlen] at hdisp
  have hrpos : 0 < max 1 (n / 10) := by omega
  have hlast : 1 ≤ n →
      (displays (match_loop env (parse_method name) (parse_flags env opts).2
        (is_similarity_method (parse_method name)) (ref_of env ds a2 a3 opts) (n : Int)
        ((max 1 (n / 10) : Nat) : Int) (master_of env ds a2 opts) 0)).getLast? =
      some (progress_msg (((n / max 1 (n / 10)) * max 1 (n / 10) : Nat) : Int) (n : Int)) := by
    intro h1
    have hle : max 1 (n / 10) ≤ n := by omega
    have hq : 0 < n / max 1 (n / 10) := Nat.div_pos hle hrpos
    obtain ⟨q, hq2⟩ : ∃ q, n / max 1 (n / 10) = q + 1 := ⟨n / max 1 (n / 10) - 1, by omega⟩
    rw [hdisp, hq2, List.range_succ, List.map_append]
    simp
  have hdvd : (n / max 1 (n / 10)) * max 1 (n / 10) = n ↔ max 1 (n / 10) ∣ n := by
    constructor
    · intro h
      exact ⟨n / max 1 (n / 10), by rw [Nat.mul_comm]; exact h.symm⟩
    · intro h
      exact Nat.div_mul_cancel h
  refine ⟨fun z => ⟨report_interval_pos z, ?_⟩, by decide,
    by rw [hn, report_interval_natCast], by decide, _, hrun, ?_, ?_, ?_, hlast, ?_, ?_,
    hdvd, ?_⟩
  · have := report_interval_pos z
    omega
  · rw [hdisp]
    simp
  · intro h1 h20
    have hr1 : max 1 (n / 10) = 1 := by omega
    have hd1 : displays (match_loop env (parse_method name) (parse_flags env opts).2
        (is_similarity_method (parse_method name)) (ref_of env ds a2 a3 opts) (n : Int)
        ((max 1 (n / 10) : Nat) : Int) (master_of env ds a2 opts) 0) =
        (List.range n).map (fun (k : Nat) => progress_msg ((k : Int) + 1) (n : Int)) := by
      rw [hdisp, hr1]
      simp
    refine ⟨hr1, hd1, ?_⟩
    rw [hd1, List.map_map]
    apply List.map_congr_left
    intro k _
    have hk := (msg_pair_progress_msg (k + 1) n).1
    simp only [Function.comp]
    push_cast at hk
    exact hk
  · intro h10
    rw [hdisp]
    simp only [List.length_map, List.length_range]
    constructor
    · rw [Nat.le_div_iff_mul_le hrpos]
      omega
    · have hlt : n / max 1 (n / 10) < 20 := by
        rw [Nat.div_lt_iff_lt_mul hrpos]
        omega
      omega
  · intro h1
    rw [hlast h1]
    simp only [Option.map_some']
    rw [(msg_pair_progress_msg _ _).1]
  · intro h1
    rw [hlast h1]
    constructor
    · intro h
      have hinj := progress_msg_injective _ _ _ _ (Option.some.inj h)
      exact hdvd.mp hinj.1
    · intro h
      rw [hdvd.mpr h]
  · intro h25
    subst h25
    have h := hlast (by decide)
    refine ⟨by decide, ?_, ?_, ?_⟩
    · rw [h]
      decide
    · rw [h]
      decide
    · rw [h]
      decide

/-- A concrete instance: 25 master records `abc` and one reference `abd` under
Hamming, where the interval is 2 and the last of the 12 messages is the one
of record 24. -/
theorem do_match_report_counts_witness :
    ((∀ z : Int, 1 ≤ report_interval z ∧ report_interval z ≠ 0) ∧
    report_interval 0 = 1 ∧
    report_interval (sample_env.atoi "25") = ((2 : Nat) : Int) ∧
    progress_msg 24 25 = "  matched 24 of 25\n" ∧
    ∃ tr : List Effect,
      do_match sample_env (sample_table (List.replicate 25 "abc" ++ ["abd"]) [] 3)
        ["match", "hamming", "25", "1"] = Except.ok ⟨0, tr⟩ ∧
      (displays tr).length = 25 / 2 ∧
      (1 ≤ 25 → 25 < 20 → 2 = 1 ∧
        displays tr = (List.range 25).map (fun (k : Nat) =>
          progress_msg ((k : Int) + 1) ((25 : Nat) : Int)) ∧
        (displays tr).map msg_done = (List.range 25).map (fun (k : Nat) => k + 1)) ∧
      (10 ≤ 25 → 10 ≤ (displays tr).length ∧ (displays tr).length ≤ 19) ∧
      (1 ≤ 25 → (displays tr).getLast? =
        some (progress_msg (((25 / 2) * 2 : Nat) : Int) ((25 : Nat) : Int))) ∧
      (1 ≤ 25 → (displays tr).getLast?.map msg_done = some ((25 / 2) * 2)) ∧
      (1 ≤ 25 → ((displays tr).getLast? =
        some (progress_msg ((25 : Nat) : Int) ((25 : Nat) : Int)) ↔ 2 ∣ 25)) ∧
      ((25 / 2) * 2 = 25 ↔ 2 ∣ 25) ∧
      (25 = 25 → 2 = 2 ∧ (displays tr).getLast? = some "  matched 24 of 25\n" ∧
        (displays tr).getLast? ≠ some (progress_msg 25 25) ∧
        (displays tr).getLast?.map msg_done = some 24)) ∧
    (∃ tr : List Effect,
      do_match sample_env (sample_table (List.replicate 25 "abc" ++ ["abd"]) [] 3)
        ["match", "hamming", "25", "1"] = Except.ok ⟨0, tr⟩ ∧
      displays tr =
        ["  matched 2 of 25\n", "  matched 4 of 25\n", "  matched 6 of 25\n",
         "  matched 8 of 25\n", "  matched 10 of 25\n", "  matched 12 of 25\n",
         "  matched 14 of 25\n", "  matched 16 of 25\n", "  matched 18 of 25\n",
         "  matched 20 of 25\n", "  matched 22 of 25\n", "  matched 24 of 25\n"]) :=
  ⟨do_match_report_counts sample_env
      (sample_table (List.replicate 25 "abc" ++ ["abd"]) [] 3)
      "match" "hamming" "25" "1" [] 25 2 (by decide) (by decide) (by decide) (by decide)
      (by decide),
    ⟨_, do_match_ok sample_env (sample_table (List.replicate 25 "abc" ++ ["abd"]) [] 3)
      "match" "hamming" "25" "1" [] (by decide) (by decide) (by decide) (by decide),
      by decide⟩⟩

end Rapidfuzz
